import Mathlib

/-!
Verification development for the auto-clicker macro engine and its visual
detection helpers.

The definitions below are a shallow embedding of the Python sources:

* `AutoClick.iou` and `AutoClick.non_max_suppression` embed
  `autoclick_pro/util/nms.py` (greedy non-maximum suppression over
  `(x, y, w, h)` boxes).  Python float arithmetic on exact small integers is
  modelled with `ℚ`; the unspecified tie order of `numpy.argsort` (an
  unstable quicksort) is modelled by a deterministic descending sort, which
  is one of its possible outputs.
* `AutoClick.match_template` embeds the multi-scale search loop of
  `autoclick_pro/detect/template_matcher.py`.  The external OpenCV calls
  (`imread`, `resize`, `matchTemplate`, `minMaxLoc`) are modelled by an
  observation oracle `obs : ℚ → ScaleObs` giving, per scale, the best
  correlation value and its location, exactly the data the source reads
  from `cv2.minMaxLoc`.
* `AutoClick.Engine.execute` / `AutoClick.Engine.run` embed
  `Engine._execute` / `Engine._run` of `autoclick_pro/core/engine.py`.
  Actions are modelled as well-typed records mirroring the dict fields the
  engine reads; a missing key is `none` / the empty string, matching the
  `dict.get` defaults used by the source.  The external detection calls
  (`grab_screen` plus `match_template` / `feature_match`, which depend on
  the live screen) are modelled by an oracle keyed by the number of detect
  calls made so far (each call captures a fresh screen); the oracle returns
  `Except` because those OpenCV calls can raise, which is the handler
  exception path that `Engine._run` catches.  `time.sleep` raises
  `ValueError` on a negative argument; this is modelled by the error
  branches guarding the sleeps.  The cooperative stop/pause flags are never
  set during the runs modelled here (single-threaded semantics with no
  intervention), so their always-false checks are omitted.  The `while`
  loop of `_run` is given explicit fuel; a run that exhausts its fuel is
  marked `completed := false` and no claim is made about it.
-/

namespace AutoClick

/-- Axis-aligned box in the `(x, y, w, h)` format used throughout the code. -/
abbrev Box := Int × Int × Int × Int

/-- Embeds `iou` from `autoclick_pro/util/nms.py`: intersection over union of
two `(x, y, w, h)` boxes, `0` when the union has non-positive area. -/
def iou (box_a box_b : Box) : ℚ :=
  let (ax, ay, aw, ah) := box_a
  let (bx, yb, bw, bh) := box_b
  let ax2 := ax + aw
  let ay2 := ay + ah
  let bx2 := bx + bw
  let by2 := yb + bh
  let ix1 := max ax bx
  let iy1 := max ay yb
  let ix2 := min ax2 bx2
  let iy2 := min ay2 by2
  let iw := max 0 (ix2 - ix1)
  let ih := max 0 (iy2 - iy1)
  let inter := iw * ih
  let union := aw * ah + bw * bh - inter
  -- `float(inter) / float(union)`: `Rat.divInt inter union = (inter : ℚ) / union`
  if 0 < union then Rat.divInt inter union else 0

/-- Embeds `scores.argsort()[::-1]` from `non_max_suppression`: the indices
`0 .. scores.length - 1` ordered by descending score.  `numpy.argsort` uses
an unstable quicksort, so the order among equal scores is unspecified; the
deterministic insertion sort chosen here realises one admissible order. -/
def argsortDesc (scores : List ℚ) : List Nat :=
  List.insertionSort (fun i j => scores.getD j 0 ≤ scores.getD i 0) (List.range scores.length)

/-- The greedy `while idxs.size > 0` loop of `non_max_suppression`: keep the
head index, drop every remaining index whose box overlaps it with IoU
strictly above the threshold, recurse on the survivors.  The `fuel`
argument bounds the recursion; the initial index-list length is always
enough fuel because each round consumes at least the head. -/
def nmsGo (boxes : List Box) (iou_threshold : ℚ) : Nat → List Nat → List Nat
  | 0, _ => []
  | _ + 1, [] => []
  | fuel + 1, i :: rest =>
      i :: nmsGo boxes iou_threshold fuel
        (rest.filter fun j =>
          decide (iou (boxes.getD i (0, 0, 0, 0)) (boxes.getD j (0, 0, 0, 0)) ≤ iou_threshold))

/-- Embeds `non_max_suppression` from `autoclick_pro/util/nms.py`: greedy NMS
returning the kept indices in processing order. -/
def non_max_suppression (boxes : List Box) (scores : List ℚ) (iou_threshold : ℚ) : List Nat :=
  if boxes = [] then []
  else
    let idxs := argsortDesc scores
    nmsGo boxes iou_threshold idxs.length idxs

/-- Result record of `match_template` (`MatchResult` in
`autoclick_pro/detect/template_matcher.py`). -/
structure MatchResult where
  found : Bool
  bbox : Option Box
  score : ℚ
  deriving DecidableEq

/-- Observation of one scale in the template-matcher loop: the `max_val` and
`max_loc` that `cv2.minMaxLoc` reports for the correlation map of the
template resized to that scale. -/
structure ScaleObs where
  max_val : ℚ
  max_loc : Int × Int
  deriving DecidableEq

/-- The fixed scale pyramid `[1.0, 0.9, 0.8, 1.1]` of `match_template`. -/
def scales : List ℚ := [1, mkRat 9 10, mkRat 8 10, mkRat 11 10]

/-- One step of the `for s in scales` loop of `match_template`: the running
best is replaced only when the new scale's score is strictly greater
(`if score > best_score`).  The recorded bbox uses the resized template
dimensions `max(1, int(shape * s))`. -/
def mt_step (obs : ℚ → ScaleObs) (tw th : Nat) (best : ℚ × Option Box) (s : ℚ) :
    ℚ × Option Box :=
  let o := obs s
  if best.1 < o.max_val then
    let nw := max 1 (s * (tw : ℚ)).floor.toNat
    let nh := max 1 (s * (th : ℚ)).floor.toNat
    (o.max_val, some (o.max_loc.1, o.max_loc.2, (nw : Int), (nh : Int)))
  else best

/-- Embeds the multi-scale search of `match_template` (decode success
assumed; `tw`/`th` are the template's width and height, `obs` the OpenCV
correlation observations per scale).  `found = best_score ≥ threshold`. -/
def match_template (obs : ℚ → ScaleObs) (tw th : Nat) (confidence_threshold : ℚ) :
    MatchResult :=
  let best := scales.foldl (mt_step obs tw th) (-1, none)
  { found := decide (confidence_threshold ≤ best.1), bbox := best.2, score := best.1 }

/-- A feature-matching candidate (`Candidate` in
`autoclick_pro/detect/feature_matcher.py`). -/
structure Candidate where
  bbox : Box
  score : ℚ
  deriving DecidableEq

/-- Result record of `feature_match` (`FeatureMatchResult` in
`autoclick_pro/detect/feature_matcher.py`). -/
structure FeatureMatchResult where
  candidates : List Candidate
  deriving DecidableEq

/-- The default `confidence_threshold` in `feature_match`'s own signature
(used only when `feature_match` is called without a threshold). -/
def feature_match_default_conf : ℚ := mkRat 1 2

/-- The dict the engine stores into `self._context["last_detect"]` and
(via `setdefault`) onto a detect action: `found`, `bbox`, `score`, plus the
serialized candidate list for the feature method. -/
structure DetectStored where
  found : Bool
  bbox : Option Box
  score : ℚ
  candidates : Option (List (Box × ℚ)) := none
  deriving DecidableEq

/-- The `until` sub-dict of a `loop_until` action's params; `none` fields are
missing keys (defaults `"last_detect"` / `True` applied at read time). -/
structure UntilParam where
  test : Option String := none
  value : Option Bool := none
  deriving DecidableEq

/-- The `params` mapping of an action, restricted to the keys the engine
reads; a `none` (resp. empty) field is a missing key.  `until_` is the
`"until"` key of `loop_until`. -/
structure Params where
  ms : Option Int := none
  x : Option Int := none
  y : Option Int := none
  button : Option String := none
  sequence : List String := []
  text_mode : Option Bool := none
  conf : Option ℚ := none
  method : Option String := none
  test : Option String := none
  true_target : Option String := none
  false_target : Option String := none
  label : Option String := none
  until_ : Option UntilParam := none
  max_iters : Option Int := none
  deriving DecidableEq

/-- An action dict as read by the engine.  `id = ""` models a missing or
falsy id (the source normalises with `str(a.get("id") or "")`); `result` is
the engine-attached detection snapshot, initially absent. -/
structure Action where
  id : String := ""
  type : String := ""
  target : Option String := none
  params : Params := {}
  delay_before_ms : Int := 0
  delay_after_ms : Int := 0
  repeat_count : Int := 1
  result : Option DetectStored := none
  deriving DecidableEq

/-- Python's `a or b` on strings: `b` when `a` is empty (falsy), else `a`. -/
def pyOr (a b : String) : String := if a = "" then b else a

/-- The per-run `self._context`; only the `"last_detect"` key is ever
written by the source. -/
structure Ctx where
  last_detect : Option DetectStored := none
  deriving DecidableEq

/-- Truthiness of `self._context.get(name)`: the `"last_detect"` entry is a
non-empty dict (truthy) exactly when a detect has run; any other name is
a missing key (falsy). -/
def ctxTruthy (ctx : Ctx) (name : String) : Bool :=
  if name = "last_detect" then ctx.last_detect.isSome else false

/-- The condition evaluation of the `conditional_jump` branch:
`cond = bool(ld and ld.get("found"))` for `test == "last_detect"`, the
`var:<name>` escape hatch otherwise, `False` for any other test string. -/
def condJumpCond (ctx : Ctx) (test : String) : Bool :=
  if test = "last_detect" then
    match ctx.last_detect with
    | none => false
    | some ld => ld.found
  else if test.startsWith "var:" then ctxTruthy ctx (test.drop 4)
  else false

/-- The condition evaluation of the `loop_until` branch:
`cond = bool(ld and bool(ld.get("found")) == bool(value))` for
`test == "last_detect"` — in particular `False` whenever no detect has run
yet — the `var:<name>` comparison otherwise, `False` for other tests. -/
def loopUntilCond (ctx : Ctx) (test : String) (value : Bool) : Bool :=
  if test = "last_detect" then
    match ctx.last_detect with
    | none => false
    | some ld => ld.found == value
  else if test.startsWith "var:" then ctxTruthy ctx (test.drop 4) == value
  else false

/-- The `until.get("test", "last_detect")` read of the `loop_until` branch
(the whole `until` dict defaults to `{"test": "last_detect", "value": True}`
when absent). -/
def untilTest (p : Params) : String :=
  match p.until_ with
  | none => "last_detect"
  | some u => u.test.getD "last_detect"

/-- The `until.get("value", True)` read of the `loop_until` branch. -/
def untilValue (p : Params) : Bool :=
  match p.until_ with
  | none => true
  | some u => u.value.getD true

/-- Models the outcome of the external detection calls of the `detect`
branch: `grab_screen()` then `match_template` / `feature_match` on the
captured image.  The argument is the number of detect calls already made
in the run (each call captures a fresh screen, so outcomes may differ per
call); `Except.error` models an exception raised inside the call (e.g. an
OpenCV error), which the engine's `try/except` must catch. -/
structure DetectOracle where
  template : Nat → Except String MatchResult
  feature : Nat → Except String FeatureMatchResult

/-- The engine's normalisation of a `feature_match` result: take the first
candidate, `found` iff it exists and scores at least `conf`, serialize all
candidates (`[c.to_dict() for c in res.candidates]`). -/
def normFeature (res : FeatureMatchResult) (conf : ℚ) : DetectStored :=
  let best := res.candidates.head?
  { found := match best with
      | some b => decide (conf ≤ b.score)
      | none => false
    bbox := best.map (·.bbox)
    score := ((best.map (·.score)).getD 0)
    candidates := some (res.candidates.map fun c => (c.bbox, c.score)) }

/-- The value stored into `last_detect` by one detection of the `detect`
branch: threshold `params.get("conf", 0.85)`, method
`params.get("method", "template")`, then the corresponding matcher call
(faithful factoring of `Engine._execute`'s detect branch). -/
def detectLd (oracle : DetectOracle) (callIdx : Nat) (p : Params) : Except String DetectStored :=
  let conf := p.conf.getD (mkRat 17 20)
  let method := p.method.getD "template"
  if method = "feature" then
    match oracle.feature callIdx with
    | .error m => .error m
    | .ok res => .ok (normFeature res conf)
  else
    match oracle.template callIdx with
    | .error m => .error m
    | .ok res => .ok { found := res.found, bbox := res.bbox, score := res.score, candidates := none }

/-- Observable side effects of one action execution: the sleeps
(`delayBeforeMs` / `delayAfterMs` / `wait`), the collaborator calls
(`real` records whether simulation mode suppressed the injection), and
each detection call with the threshold actually passed to the matcher. -/
inductive Ev where
  | sleepBefore (ms : Int)
  | sleepAfter (ms : Int)
  | waitSleep (ms : Int)
  | click (x y : Option Int) (button : String) (real : Bool)
  | keys (sequence : List String) (text_mode : Bool) (real : Bool)
  | detect (method : String) (conf : ℚ)
  deriving DecidableEq

namespace Engine

/-- State threaded through the iterations of the `repeatCount` loop of
`Engine._execute`: the (possibly `result`-annotated) action, the run
context, the per-loop-index iteration counters, the number of detect calls
made so far, and the emitted events. -/
structure IterState where
  action : Action
  ctx : Ctx
  loopIters : Nat → Nat
  detectCalls : Nat
  events : List Ev

/-- Outcome of one iteration of the repeat loop: fall through to the next
iteration, an early `return v` (Python's `return` inside the `for` loop,
which also skips `delayAfterMs`), or an uncaught exception. -/
inductive OnceOut where
  | cont (st : IterState)
  | ret (st : IterState) (v : Option Nat)
  | err (st : IterState) (msg : String)

/-- One iteration of the dispatch body of `Engine._execute`, branch by
branch in source order (`wait`, `mouse_click`, `key_sequence`, `detect`,
`conditional_jump`, `label`, `loop_until`, unknown-type no-op). -/
def execOnce (oracle : DetectOracle) (sim : Bool) (idToIndex : String → Option Nat)
    (currentIndex : Nat) (st : IterState) : OnceOut :=
  let a := st.action
  let t := a.type
  let params := a.params
  if t = "wait" then
    let ms := params.ms.getD 0
    if ms < 0 then .err st "sleep length must be non-negative"
    else .cont { st with events := st.events ++ [Ev.waitSleep ms] }
  else if t = "mouse_click" then
    .cont { st with events :=
      st.events ++ [Ev.click params.x params.y (params.button.getD "left") (!sim)] }
  else if t = "key_sequence" then
    .cont { st with events :=
      st.events ++ [Ev.keys params.sequence (params.text_mode.getD true) (!sim)] }
  else if t = "detect" then
    let conf := params.conf.getD (mkRat 17 20)
    let method := params.method.getD "template"
    let stc := { st with
      events := st.events ++ [Ev.detect method conf]
      detectCalls := st.detectCalls + 1 }
    match detectLd oracle st.detectCalls params with
    | .error m => .err stc m
    | .ok ld =>
        -- `self._context["last_detect"] = {...}` then
        -- `action.setdefault("result", self._context["last_detect"])`
        .cont { stc with
          action := { a with result := some (a.result.getD ld) }
          ctx := { last_detect := some ld } }
  else if t = "conditional_jump" then
    let test := params.test.getD "last_detect"
    let cond := condJumpCond st.ctx test
    let target_id := if cond then params.true_target else params.false_target
    match target_id with
    | some s =>
        if s = "" then .cont st
        else
          match idToIndex s with
          | some j => .ret st (some j)
          | none => .cont st
    | none => .cont st
  else if t = "label" then
    .cont st
  else if t = "loop_until" then
    let label := params.label
    let utest := untilTest params
    let uvalue := untilValue params
    let max_iters := params.max_iters.getD 100
    let cond := loopUntilCond st.ctx utest uvalue
    let count := st.loopIters currentIndex
    if cond then .ret st none
    else if max_iters ≤ (count : Int) then .ret st none
    else
      let st2 := { st with loopIters := fun k => if k = currentIndex then count + 1 else st.loopIters k }
      match label with
      | some s =>
          if s = "" then .ret st2 none
          else
            match idToIndex s with
            | some j => .ret st2 (some j)
            | none => .ret st2 none
      | none => .ret st2 none
  else
    .cont st

/-- The iteration state carried by an iteration outcome. -/
def OnceOut.state : OnceOut → IterState
  | .cont st => st
  | .ret st _ => st
  | .err st _ => st

/-- Outcome of the whole repeat loop, with the number of iterations that
were entered. -/
inductive IterOutcome where
  | fellThrough (st : IterState) (iters : Nat)
  | earlyReturn (st : IterState) (iters : Nat) (v : Option Nat)
  | errored (st : IterState) (iters : Nat) (msg : String)

/-- The iteration state carried by a repeat-loop outcome. -/
def IterOutcome.state : IterOutcome → IterState
  | .fellThrough st _ => st
  | .earlyReturn st _ _ => st
  | .errored st _ _ => st

/-- The `for _ in range(max(1, repeat))` loop of `Engine._execute`. -/
def execIters (oracle : DetectOracle) (sim : Bool) (idToIndex : String → Option Nat)
    (currentIndex : Nat) : Nat → IterState → IterOutcome
  | 0, st => .fellThrough st 0
  | n + 1, st =>
      match execOnce oracle sim idToIndex currentIndex st with
      | .ret st2 v => .earlyReturn st2 1 v
      | .err st2 m => .errored st2 1 m
      | .cont st2 =>
          match execIters oracle sim idToIndex currentIndex n st2 with
          | .fellThrough st3 k => .fellThrough st3 (k + 1)
          | .earlyReturn st3 k v => .earlyReturn st3 (k + 1) v
          | .errored st3 k m => .errored st3 (k + 1) m

/-- Result of `Engine._execute` on one action: the returned jump (or `none`
for fall-through), the possibly-annotated action, the updated run state,
the emitted events, the number of repeat iterations entered, and the
uncaught exception if one was raised. -/
structure ExecOut where
  jump : Option Nat
  action : Action
  ctx : Ctx
  loopIters : Nat → Nat
  detectCalls : Nat
  events : List Ev
  iters : Nat
  error : Option String

/-- Embeds `Engine._execute`: sleep `delayBeforeMs` (raising on a negative
value, as `time.sleep` does), run the repeat loop, and — only when the loop
fell through rather than `return`ed — sleep `delayAfterMs`. -/
def execute (oracle : DetectOracle) (sim : Bool) (idToIndex : String → Option Nat)
    (currentIndex : Nat) (a : Action) (ctx : Ctx) (loopIters : Nat → Nat)
    (detectCalls : Nat) : ExecOut :=
  let delay_before := a.delay_before_ms
  let delay_after := a.delay_after_ms
  let rep := max 1 a.repeat_count
  if delay_before < 0 then
    { jump := none, action := a, ctx := ctx, loopIters := loopIters,
      detectCalls := detectCalls, events := [], iters := 0,
      error := some "sleep length must be non-negative" }
  else
    let ev0 : List Ev := if delay_before ≠ 0 then [Ev.sleepBefore delay_before] else []
    let st0 : IterState :=
      { action := a, ctx := ctx, loopIters := loopIters, detectCalls := detectCalls,
        events := ev0 }
    match execIters oracle sim idToIndex currentIndex rep.toNat st0 with
    | .earlyReturn st k v =>
        { jump := v, action := st.action, ctx := st.ctx, loopIters := st.loopIters,
          detectCalls := st.detectCalls, events := st.events, iters := k, error := none }
    | .errored st k m =>
        { jump := none, action := st.action, ctx := st.ctx, loopIters := st.loopIters,
          detectCalls := st.detectCalls, events := st.events, iters := k, error := some m }
    | .fellThrough st k =>
        if delay_after < 0 then
          { jump := none, action := st.action, ctx := st.ctx, loopIters := st.loopIters,
            detectCalls := st.detectCalls, events := st.events, iters := k,
            error := some "sleep length must be non-negative" }
        else
          { jump := none, action := st.action, ctx := st.ctx, loopIters := st.loopIters,
            detectCalls := st.detectCalls,
            events := st.events ++ (if delay_after ≠ 0 then [Ev.sleepAfter delay_after] else []),
            iters := k, error := none }

/-- The registration key an action contributes to `id_to_index`:
`str(a.get("id") or "")`, registered only when non-empty. -/
def regKey_id (a : Action) : String := a.id

/-- The registration key an action contributes to `label_to_index`:
for `label`-typed actions, `str(a.get("target") or aid)`, registered only
when non-empty; other actions register nothing (empty key). -/
def regKey_label (a : Action) : String :=
  if a.type = "label" then pyOr (a.target.getD "") a.id else ""

/-- The single `for i, a in enumerate(actions)` scan of `Engine._run`
building one of the two index maps: a later registration of the same key
overwrites an earlier one. -/
def buildMap (keyOf : Action → String) (actions : List Action) : String → Option Nat :=
  actions.enum.foldl
    (fun m p =>
      if keyOf p.2 = "" then m
      else fun k => if k = keyOf p.2 then some p.1 else m k)
    (fun _ => none)

/-- The `id_to_index` map of `Engine._run`. -/
def id_to_index (actions : List Action) : String → Option Nat :=
  buildMap regKey_id actions

/-- The `label_to_index` map of `Engine._run`. -/
def label_to_index (actions : List Action) : String → Option Nat :=
  buildMap regKey_label actions

/-- The merged map `id_to_index | label_to_index` passed to `_execute`:
a `label_to_index` entry overrides an `id_to_index` entry with the same
key (Python dict union: right operand wins). -/
def jumpMap (actions : List Action) : String → Option Nat :=
  fun k => (label_to_index actions k).orElse fun _ => id_to_index actions k

/-- State of the `while i < len(actions)` loop of `Engine._run`. -/
structure RunState where
  actions : List Action
  ctx : Ctx
  loopIters : Nat → Nat
  detectCalls : Nat

/-- Result of a run: the final (possibly `result`-annotated) timeline, the
final context, the indices dispatched in order, the emitted status strings,
the events, the index whose handler raised (if any), and whether the loop
actually terminated within the supplied fuel. -/
structure RunOut where
  actions : List Action
  ctx : Ctx
  executed : List Nat
  statuses : List String
  events : List Ev
  errorIdx : Option Nat
  completed : Bool

/-- The `while i < len(actions)` loop of `Engine._run` (stop/pause flags
never set): dispatch the current index, on an exception log it and break,
otherwise jump or fall through; emit `"Idle"` when the loop exits. -/
def runFrom (oracle : DetectOracle) (sim : Bool) (idToIndex : String → Option Nat) :
    Nat → Nat → RunState → RunOut
  | 0, _, st =>
      { actions := st.actions, ctx := st.ctx, executed := [], statuses := [],
        events := [], errorIdx := none, completed := false }
  | fuel + 1, i, st =>
      if hi : i < st.actions.length then
        let out := execute oracle sim idToIndex i st.actions[i] st.ctx st.loopIters st.detectCalls
        let st2 : RunState :=
          { actions := st.actions.set i out.action, ctx := out.ctx,
            loopIters := out.loopIters, detectCalls := out.detectCalls }
        match out.error with
        | some _ =>
            { actions := st2.actions, ctx := st2.ctx, executed := [i],
              statuses := ["Idle"], events := out.events, errorIdx := some i,
              completed := true }
        | none =>
            let next := out.jump.getD (i + 1)
            let rest := runFrom oracle sim idToIndex fuel next st2
            { actions := rest.actions, ctx := rest.ctx, executed := i :: rest.executed,
              statuses := rest.statuses, events := out.events ++ rest.events,
              errorIdx := rest.errorIdx, completed := rest.completed }
      else
        { actions := st.actions, ctx := st.ctx, executed := [], statuses := ["Idle"],
          events := [], errorIdx := none, completed := true }

/-- Embeds `Engine._run` for a `start(actions)` call: emit `"Running"`,
build the jump map once, reset the context and loop counters, execute from
index `0`. -/
def run (oracle : DetectOracle) (sim : Bool) (actions : List Action) (fuel : Nat) : RunOut :=
  let inner := runFrom oracle sim (jumpMap actions) fuel 0
    { actions := actions, ctx := { last_detect := none }, loopIters := fun _ => 0,
      detectCalls := 0 }
  { inner with statuses := "Running" :: inner.statuses }

end Engine

open Engine

/-- Concrete timeline for the bounded-loop scenario: a `label "start"`, a
`detect`, and a `loop_until` jumping back to `"start"` with
`until = {test: last_detect, value: true}` and `max_iters = 3`. -/
def tlC2 : List Action :=
  [ { type := "label", target := some "start" },
    { type := "detect", target := some "tmpl.png" },
    { type := "loop_until",
      params := { label := some "start",
                  until_ := some { test := some "last_detect", value := some true },
                  max_iters := some 3 } } ]

/-- Detection oracle whose template matcher always reports `found = false`. -/
def oracleNever : DetectOracle :=
  { template := fun _ => .ok { found := false, bbox := none, score := 0 },
    feature := fun _ => .ok { candidates := [] } }

/-- The `last_detect` dict of a failed template detection. -/
def ldFalse : DetectStored := { found := false, bbox := none, score := 0, candidates := none }

/-- The `last_detect` dict of a successful template detection at
`bbox = (1, 2, 3, 4)`. -/
def ldTrue : DetectStored :=
  { found := true, bbox := some (1, 2, 3, 4), score := 1, candidates := none }

/-- Concrete timeline re-entering the same `detect` action: a `detect` with
id `"d"` and a `loop_until` jumping back to it until the detect succeeds. -/
def tlC3 : List Action :=
  [ { id := "d", type := "detect", target := some "t.png" },
    { type := "loop_until",
      params := { label := some "d",
                  until_ := some { test := some "last_detect", value := some true },
                  max_iters := some 5 } } ]

/-- Oracle failing on the first capture and succeeding on every later one. -/
def oracleC3 : DetectOracle :=
  { template := fun n =>
      .ok (if n = 0 then { found := false, bbox := none, score := 0 }
           else { found := true, bbox := some (1, 2, 3, 4), score := 1 }),
    feature := fun _ => .ok { candidates := [] } }

/-- A `detect` action using the feature method with no `conf` param. -/
def aC4 : Action :=
  { type := "detect", target := some "t.png", params := { method := some "feature" } }

/-- Timeline registering the key `"x"` twice: first as a label name (index
0), later as an action id (index 1). -/
def tlC5 : List Action :=
  [ { type := "label", target := some "x" },
    { id := "x", type := "wait" } ]

/-- Scale observations where scales `1.0` and `0.9` tie on the best score
with different locations. -/
def obsC6 : ℚ → ScaleObs := fun s =>
  if s = 1 then { max_val := mkRat 1 2, max_loc := (0, 0) }
  else if s = mkRat 9 10 then { max_val := mkRat 1 2, max_loc := (5, 5) }
  else { max_val := 0, max_loc := (9, 9) }

/-- Oracle whose template matcher raises (models an OpenCV error such as a
template larger than the captured screen). -/
def oracleRaise : DetectOracle :=
  { template := fun _ => .error "cv2 error",
    feature := fun _ => .error "cv2 error" }

/-- Single-action timeline whose only action is a `detect`. -/
def tlRaise : List Action := [{ type := "detect", target := some "t.png" }]

/-- An action with its engine-attached `result` key removed; used to state
that `result` is the only field of the timeline the engine ever mutates. -/
def stripResult (a : Action) : Action := { a with result := none }

/-- The final timeline differs from the input timeline at most in the
engine-attached `result` fields, and non-`detect` actions are untouched
(out-of-range positions compare two defaults and hold trivially). -/
def ResultOnlyDiff (orig final : List Action) : Prop :=
  final.length = orig.length ∧
    ∀ k : Nat, stripResult (final.getD k {}) = stripResult (orig.getD k {})
      ∧ ((orig.getD k {}).type ≠ "detect" → final.getD k {} = orig.getD k {})

/-- The scan position whose registration the index-map construction ends up
keeping for key `k`: the last entry of the enumerated timeline whose
registration key equals `k` (no entry registers the empty key). -/
def lastReg (keyOf : Action → String) (k : String) (l : List (Nat × Action)) : Option Nat :=
  ((l.filter fun p => decide (keyOf p.2 = k ∧ k ≠ "")).getLast?).map Prod.fst

/-- Straight-line timeline with no detect / jump / loop actions: a `wait`,
a `mouse_click`, and a `label`. -/
def tlC1w : List Action :=
  [ { type := "wait", params := { ms := some 5 } },
    { type := "mouse_click", params := { x := some 3, y := some 4 } },
    { type := "label", target := some "end" } ]

/-- A `conditional_jump` whose false branch resolves, with a repeat count
and an after-delay that an explicit jump must skip. -/
def aC9 : Action :=
  { type := "conditional_jump",
    params := { true_target := some "t", false_target := some "f" },
    repeat_count := 3, delay_after_ms := 50 }

/-- Jump map resolving only the id `"f"` (to index 7). -/
def mC9 : String → Option Nat := fun s => if s = "f" then some 7 else none

/-- A `loop_until` with `until.value = false` jumping back to label `"L"`. -/
def aC10 : Action :=
  { type := "loop_until",
    params := { label := some "L",
                until_ := some { test := some "last_detect", value := some false },
                max_iters := some 3 } }

/-- Jump map resolving only the label `"L"` (to index 2). -/
def mC10 : String → Option Nat := fun s => if s = "L" then some 2 else none

/-- A bare template-method `detect` action with no `result` attached yet. -/
def aC3w : Action := { type := "detect", target := some "t.png" }

/-! ## Non-maximum suppression (claim C7) -/

/-- IoU is symmetric in its two boxes. -/
theorem iou_comm (a b : Box) : iou a b = iou b a := by
  obtain ⟨ax, ay, aw, ah⟩ := a
  obtain ⟨bx, yb, bw, bh⟩ := b
  simp only [iou]
  rw [max_comm ax bx, max_comm ay yb, min_comm (ax + aw) (bx + bw),
    min_comm (ay + ah) (yb + bh), add_comm (aw * ah) (bw * bh)]

/-- The greedy loop only ever keeps indices taken from its input list. -/
theorem nmsGo_subset (boxes : List Box) (t : ℚ) :
    ∀ (fuel : Nat) (l : List Nat), nmsGo boxes t fuel l ⊆ l := by
  intro fuel
  induction fuel with
  | zero => intro l; simp [nmsGo]
  | succ n ih =>
    intro l
    match l with
    | [] => simp [nmsGo]
    | i :: rest =>
      simp only [nmsGo]
      exact List.cons_subset_cons i ((ih _).trans (List.filter_subset' _))

/-- Any two indices kept by the greedy loop (in keep order) overlap with IoU
at most the threshold: once an index is kept, every survivor of its filter
round overlaps it by at most the threshold. -/
theorem nmsGo_pairwise (boxes : List Box) (t : ℚ) :
    ∀ (fuel : Nat) (l : List Nat),
      (nmsGo boxes t fuel l).Pairwise
        (fun i j => iou (boxes.getD i (0, 0, 0, 0)) (boxes.getD j (0, 0, 0, 0)) ≤ t) := by
  intro fuel
  induction fuel with
  | zero => intro l; simp [nmsGo]
  | succ n ih =>
    intro l
    match l with
    | [] => simp [nmsGo]
    | i :: rest =>
      simp only [nmsGo]
      refine List.Pairwise.cons ?_ (ih _)
      intro j hj
      have hj2 := nmsGo_subset boxes t n _ hj
      exact of_decide_eq_true (List.mem_filter.mp hj2).2

/-- The greedy loop keeps distinct indices when fed distinct indices. -/
theorem nmsGo_nodup (boxes : List Box) (t : ℚ) :
    ∀ (fuel : Nat) (l : List Nat), l.Nodup → (nmsGo boxes t fuel l).Nodup := by
  intro fuel
  induction fuel with
  | zero => intro l _; simp [nmsGo]
  | succ n ih =>
    intro l hnd
    match l with
    | [] => simp [nmsGo]
    | i :: rest =>
      simp only [nmsGo]
      rcases List.nodup_cons.mp hnd with ⟨hi, hrest⟩
      refine List.nodup_cons.mpr ⟨?_, ih _ (hrest.filter _)⟩
      intro hmem
      exact hi (List.mem_of_mem_filter (nmsGo_subset boxes t n _ hmem))

/-- When no two distinct input indices overlap above the threshold, the
greedy loop suppresses nothing. -/
theorem nmsGo_all_kept (boxes : List Box) (t : ℚ) :
    ∀ (fuel : Nat) (l : List Nat), l.length ≤ fuel → l.Nodup →
      (∀ i ∈ l, ∀ j ∈ l, i ≠ j →
        iou (boxes.getD i (0, 0, 0, 0)) (boxes.getD j (0, 0, 0, 0)) ≤ t) →
      nmsGo boxes t fuel l = l := by
  intro fuel
  induction fuel with
  | zero =>
    intro l hl _ _
    match l with
    | [] => simp [nmsGo]
  | succ n ih =>
    intro l hl hnd hpw
    match l with
    | [] => simp [nmsGo]
    | i :: rest =>
      rcases List.nodup_cons.mp hnd with ⟨hi, hrest⟩
      have hfilter : (rest.filter fun j =>
          decide (iou (boxes.getD i (0, 0, 0, 0)) (boxes.getD j (0, 0, 0, 0)) ≤ t)) = rest := by
        refine List.filter_eq_self.mpr ?_
        intro j hj
        refine decide_eq_true (hpw i (List.mem_cons_self _ _) j (List.mem_cons_of_mem _ hj) ?_)
        intro hij
        exact hi (hij ▸ hj)
      simp only [nmsGo, hfilter]
      have hlen : rest.length ≤ n := by simpa using hl
      have : nmsGo boxes t n rest = rest := by
        refine ih rest hlen hrest ?_
        intro a ha b hb hab
        exact hpw a (List.mem_cons_of_mem _ ha) b (List.mem_cons_of_mem _ hb) hab
      rw [this]

/-- The descending argsort is a permutation of `range scores.length`. -/
theorem argsortDesc_perm (scores : List ℚ) :
    List.Perm (argsortDesc scores) (List.range scores.length) :=
  List.perm_insertionSort _ _

/-- The kept-index list of `non_max_suppression` has no duplicates. -/
theorem non_max_suppression_nodup (boxes : List Box) (scores : List ℚ) (t : ℚ) :
    (non_max_suppression boxes scores t).Nodup := by
  unfold non_max_suppression
  split
  · simp
  · exact nmsGo_nodup boxes t _ _ ((argsortDesc_perm scores).nodup_iff.mpr (List.nodup_range _))

/-- Any two distinct kept indices overlap with IoU at most the threshold. -/
theorem non_max_suppression_pairwise (boxes : List Box) (scores : List ℚ) (t : ℚ) :
    ∀ i ∈ non_max_suppression boxes scores t, ∀ j ∈ non_max_suppression boxes scores t,
      i ≠ j → iou (boxes.getD i (0, 0, 0, 0)) (boxes.getD j (0, 0, 0, 0)) ≤ t := by
  have hsymm : Symmetric fun i j : Nat =>
      iou (boxes.getD i (0, 0, 0, 0)) (boxes.getD j (0, 0, 0, 0)) ≤ t := by
    intro i j h
    rw [iou_comm]
    exact h
  have hpw : (non_max_suppression boxes scores t).Pairwise
      (fun i j => iou (boxes.getD i (0, 0, 0, 0)) (boxes.getD j (0, 0, 0, 0)) ≤ t) := by
    unfold non_max_suppression
    split
    · simp
    · exact nmsGo_pairwise boxes t _ _
  intro i hi j hj hij
  exact hpw.forall hsymm hi hj hij

/-- C7: greedy non-max suppression is idempotent — applying `suppress` to
the boxes/scores it kept (with the same threshold) keeps all of them (the
second pass is a permutation of all indices of the kept list) — and,
consequently, any two distinct kept boxes have IoU not exceeding the
threshold. -/
theorem C7_nms_idempotent_and_bounded_overlap (boxes : List Box) (scores : List ℚ) (t : ℚ) :
    (∀ i ∈ non_max_suppression boxes scores t, ∀ j ∈ non_max_suppression boxes scores t,
      i ≠ j → iou (boxes.getD i (0, 0, 0, 0)) (boxes.getD j (0, 0, 0, 0)) ≤ t)
    ∧ List.Perm
        (non_max_suppression
          ((non_max_suppression boxes scores t).map fun k => boxes.getD k (0, 0, 0, 0))
          ((non_max_suppression boxes scores t).map fun k => scores.getD k 0) t)
        (List.range (non_max_suppression boxes scores t).length) := by
  refine ⟨non_max_suppression_pairwise boxes scores t, ?_⟩
  set keep := non_max_suppression boxes scores t with hkeep
  by_cases hne : keep = []
  · rw [hne]
    simp [non_max_suppression]
  · have hmapne : (keep.map fun k => boxes.getD k (0, 0, 0, 0)) ≠ [] := by
      simpa using hne
    have hlen2 : (keep.map fun k => scores.getD k 0).length = keep.length := by simp
    unfold non_max_suppression
    rw [if_neg hmapne]
    have hperm := argsortDesc_perm (keep.map fun k => scores.getD k 0)
    have hall : nmsGo (keep.map fun k => boxes.getD k (0, 0, 0, 0)) t
        (argsortDesc (keep.map fun k => scores.getD k 0)).length
        (argsortDesc (keep.map fun k => scores.getD k 0))
        = argsortDesc (keep.map fun k => scores.getD k 0) := by
      refine nmsGo_all_kept _ t _ _ le_rfl
        (hperm.nodup_iff.mpr (List.nodup_range _)) ?_
      intro i hi j hj hij
      have hi2 : i < keep.length := by
        have := hperm.mem_iff.mp hi
        rw [hlen2] at this
        exact List.mem_range.mp this
      have hj2 : j < keep.length := by
        have := hperm.mem_iff.mp hj
        rw [hlen2] at this
        exact List.mem_range.mp this
      have hgetI : (keep.map fun k => boxes.getD k (0, 0, 0, 0)).getD i (0, 0, 0, 0)
          = boxes.getD keep[i] (0, 0, 0, 0) := by
        rw [List.getD_eq_getElem?_getD, List.getElem?_map,
          List.getElem?_eq_getElem hi2]
        rfl
      have hgetJ : (keep.map fun k => boxes.getD k (0, 0, 0, 0)).getD j (0, 0, 0, 0)
          = boxes.getD keep[j] (0, 0, 0, 0) := by
        rw [List.getD_eq_getElem?_getD, List.getElem?_map,
          List.getElem?_eq_getElem hj2]
        rfl
      rw [hgetI, hgetJ]
      have hnd : keep.Nodup := non_max_suppression_nodup boxes scores t
      refine non_max_suppression_pairwise boxes scores t keep[i]
        (List.getElem_mem _) keep[j] (List.getElem_mem _) ?_
      intro hEq
      exact hij (hnd.getElem_inj_iff.mp hEq)
    rw [hall]
    rw [hlen2] at hperm
    exact hperm

/-! ## Template matcher (claim C6) -/

/-- `Rat.floor` agrees with the floor of the `FloorRing` instance. -/
theorem ratFloor_eq_intFloor (q : ℚ) : q.floor = ⌊q⌋ := rfl

/-- Flooring a natural number cast into `ℚ` returns it unchanged. -/
theorem ratFloor_natCast (n : Nat) : ((n : ℚ)).floor = n := by
  rw [ratFloor_eq_intFloor, Int.floor_natCast]

/-- Once the running best score is at least every remaining scale's score,
the remaining iterations of the scale loop change nothing: the strict
`score > best_score` comparison never fires, so equal scores at later
scales never replace the recorded bbox. -/
theorem mt_fold_no_replace (obs : ℚ → ScaleObs) (tw th : Nat) :
    ∀ (l : List ℚ) (v : ℚ) (b : Option Box),
      (∀ s ∈ l, (obs s).max_val ≤ v) →
      l.foldl (mt_step obs tw th) (v, b) = (v, b) := by
  intro l
  induction l with
  | nil => intro v b _; rfl
  | cons s rest ih =>
    intro v b h
    have hs : (obs s).max_val ≤ v := h s (List.mem_cons_self _ _)
    have hstep : mt_step obs tw th (v, b) s = (v, b) := by
      simp only [mt_step]
      rw [if_neg (not_lt.mpr hs)]
    rw [List.foldl_cons, hstep]
    exact ih v b fun s2 hs2 => h s2 (List.mem_cons_of_mem _ hs2)

/-- C6 (counterexample): with equal best scores `1/2` at scales `1.0` and
`0.9`, `match_template` reports the bbox of scale `1.0` (evaluated
earlier), not the bbox `(5, 5, 9, 9)` that the later tying scale `0.9`
would produce — refuting the claim that the later scale wins ties. -/
theorem C6_tie_keeps_earlier_scale_cex :
    (match_template obsC6 10 10 (mkRat 1 4)).bbox = some (0, 0, 10, 10) ∧
      (match_template obsC6 10 10 (mkRat 1 4)).bbox ≠ some (5, 5, 9, 9) := by
  have h : (match_template obsC6 10 10 (mkRat 1 4)).bbox = some (0, 0, 10, 10) := by
    simp only [match_template, scales, mt_step, obsC6, List.foldl_cons, List.foldl_nil, one_mul]
    norm_num
    decide
  refine ⟨h, ?_⟩
  rw [h]
  decide

/-- C6 (amended): ties between scales are resolved in favour of the scale
evaluated **earlier** in the fixed order `[1.0, 0.9, 0.8, 1.1]`: the update
uses a strict `score > best_score` comparison, so (1) once the running best
score is at least every remaining scale's score the remaining iterations
change nothing, and (2) whenever scale `1.0` improves on the initial `-1`
and every later scale scores at most scale `1.0`'s value (in particular on
equal scores), the result is exactly scale `1.0`'s score and bbox. -/
theorem C6_amended_earlier_scale_wins_ties :
    (∀ (obs : ℚ → ScaleObs) (tw th : Nat) (l : List ℚ) (v : ℚ) (b : Option Box),
      (∀ s ∈ l, (obs s).max_val ≤ v) →
      l.foldl (mt_step obs tw th) (v, b) = (v, b))
    ∧ ∀ (obs : ℚ → ScaleObs) (tw th : Nat) (conf : ℚ),
        -1 < (obs 1).max_val →
        (∀ s ∈ [mkRat 9 10, mkRat 8 10, mkRat 11 10], (obs s).max_val ≤ (obs 1).max_val) →
        match_template obs tw th conf =
          { found := decide (conf ≤ (obs 1).max_val),
            bbox := some ((obs 1).max_loc.1, (obs 1).max_loc.2,
              ((max 1 tw : Nat) : Int), ((max 1 th : Nat) : Int)),
            score := (obs 1).max_val } := by
  refine ⟨mt_fold_no_replace, ?_⟩
  intro obs tw th conf h1 hrest
  have hstep1 : mt_step obs tw th (-1, none) 1 =
      ((obs 1).max_val, some ((obs 1).max_loc.1, (obs 1).max_loc.2,
        ((max 1 tw : Nat) : Int), ((max 1 th : Nat) : Int))) := by
    simp only [mt_step]
    rw [if_pos h1, one_mul, one_mul, ratFloor_natCast, ratFloor_natCast]
    simp
  have hfold : scales.foldl (mt_step obs tw th) (-1, none) =
      ((obs 1).max_val, some ((obs 1).max_loc.1, (obs 1).max_loc.2,
        ((max 1 tw : Nat) : Int), ((max 1 th : Nat) : Int))) := by
    rw [scales, List.foldl_cons, hstep1]
    exact mt_fold_no_replace obs tw th _ _ _ hrest
  simp only [match_template, hfold]

/-! ## Engine: straight-line execution (claim C1) -/

/-- Writing back the element already at a position leaves a list unchanged. -/
theorem list_set_getElem_self {α : Type _} :
    ∀ (l : List α) (i : Nat) (h : i < l.length), l.set i l[i] = l := by
  intro l
  induction l with
  | nil => intro i h; simp at h
  | cons x xs ih =>
    intro i h
    cases i with
    | zero => simp
    | succ n =>
      simp only [List.getElem_cons_succ, List.set_cons_succ]
      rw [ih n (by simpa using h)]

/-- The disjoint action types of claim C1. -/
def passiveTypes : List String := ["detect", "conditional_jump", "loop_until"]

/-- One iteration of a `wait`, `mouse_click`, `key_sequence`, `label`, or
unknown-typed action falls through, touching nothing but the event log. -/
theorem execOnce_passive (oracle : DetectOracle) (sim : Bool) (m : String → Option Nat)
    (ci : Nat) (st : IterState)
    (hty : st.action.type ∉ passiveTypes)
    (hms : 0 ≤ st.action.params.ms.getD 0) :
    ∃ e, execOnce oracle sim m ci st = .cont { st with events := st.events ++ e } := by
  simp only [passiveTypes, List.mem_cons, List.not_mem_nil, or_false, not_or] at hty
  obtain ⟨hd, hc, hl⟩ := hty
  by_cases h1 : st.action.type = "wait"
  · refine ⟨[Ev.waitSleep (st.action.params.ms.getD 0)], ?_⟩
    simp [execOnce, h1, not_lt.mpr hms]
  · by_cases h2 : st.action.type = "mouse_click"
    · refine ⟨[Ev.click st.action.params.x st.action.params.y
        (st.action.params.button.getD "left") (!sim)], ?_⟩
      simp [execOnce, h2]
    · by_cases h3 : st.action.type = "key_sequence"
      · refine ⟨[Ev.keys st.action.params.sequence
          (st.action.params.text_mode.getD true) (!sim)], ?_⟩
        simp [execOnce, h3]
      · by_cases h4 : st.action.type = "label"
        · refine ⟨[], ?_⟩
          simp [execOnce, h4]
        · refine ⟨[], ?_⟩
          simp [execOnce, h1, h2, h3, h4, hd, hc, hl]

/-- The whole repeat loop of a passive action falls through after entering
all its iterations, touching nothing but the event log. -/
theorem execIters_passive (oracle : DetectOracle) (sim : Bool) (m : String → Option Nat)
    (ci : Nat) :
    ∀ (n : Nat) (st : IterState),
      st.action.type ∉ passiveTypes →
      0 ≤ st.action.params.ms.getD 0 →
      ∃ e, execIters oracle sim m ci n st = .fellThrough { st with events := st.events ++ e } n := by
  intro n
  induction n with
  | zero =>
    intro st _ _
    exact ⟨[], by simp [execIters]⟩
  | succ k ih =>
    intro st hty hms
    obtain ⟨e1, h1⟩ := execOnce_passive oracle sim m ci st hty hms
    obtain ⟨e2, h2⟩ := ih { st with events := st.events ++ e1 } hty hms
    refine ⟨e1 ++ e2, ?_⟩
    simp only [execIters, h1, h2, List.append_assoc]

/-- `Engine._execute` on a passive, well-formed action returns fall-through
with no error, leaves the action, context, loop counters and detect-call
count unchanged, and enters `max(1, repeatCount)` iterations. -/
theorem execute_passive (oracle : DetectOracle) (sim : Bool) (m : String → Option Nat)
    (ci : Nat) (a : Action) (ctx : Ctx) (li : Nat → Nat) (dc : Nat)
    (hty : a.type ∉ passiveTypes)
    (hms : 0 ≤ a.params.ms.getD 0)
    (hdb : 0 ≤ a.delay_before_ms)
    (hda : 0 ≤ a.delay_after_ms) :
    ∃ e, execute oracle sim m ci a ctx li dc =
      { jump := none, action := a, ctx := ctx, loopIters := li, detectCalls := dc,
        events := e, iters := (max 1 a.repeat_count).toNat, error := none } := by
  obtain ⟨e, he⟩ := execIters_passive oracle sim m ci (max 1 a.repeat_count).toNat
    { action := a, ctx := ctx, loopIters := li, detectCalls := dc,
      events := if a.delay_before_ms ≠ 0 then [Ev.sleepBefore a.delay_before_ms] else [] }
    hty hms
  refine ⟨((if a.delay_before_ms ≠ 0 then [Ev.sleepBefore a.delay_before_ms] else []) ++ e)
      ++ (if a.delay_after_ms ≠ 0 then [Ev.sleepAfter a.delay_after_ms] else []), ?_⟩
  simp only [execute, he]
  rw [if_neg (not_lt.mpr hdb), if_neg (not_lt.mpr hda)]

/-- One step of the worker loop when the current index is past the end:
the loop exits and emits `"Idle"`. -/
theorem runFrom_stop (oracle : DetectOracle) (sim : Bool) (m : String → Option Nat)
    (fuel i : Nat) (st : RunState) (hi : ¬ i < st.actions.length) :
    runFrom oracle sim m (fuel + 1) i st =
      { actions := st.actions, ctx := st.ctx, executed := [], statuses := ["Idle"],
        events := [], errorIdx := none, completed := true } := by
  simp [runFrom, hi]

/-- One step of the worker loop when the current action's handler raises:
the exception is caught, the run records the failing index and terminates
with `"Idle"`. -/
theorem runFrom_error (oracle : DetectOracle) (sim : Bool) (m : String → Option Nat)
    (fuel i : Nat) (st : RunState) (msg : String) (hi : i < st.actions.length)
    (herr : (execute oracle sim m i st.actions[i] st.ctx st.loopIters st.detectCalls).error
      = some msg) :
    runFrom oracle sim m (fuel + 1) i st =
      { actions := st.actions.set i
          (execute oracle sim m i st.actions[i] st.ctx st.loopIters st.detectCalls).action,
        ctx := (execute oracle sim m i st.actions[i] st.ctx st.loopIters st.detectCalls).ctx,
        executed := [i], statuses := ["Idle"],
        events := (execute oracle sim m i st.actions[i] st.ctx st.loopIters st.detectCalls).events,
        errorIdx := some i, completed := true } := by
  simp only [runFrom, dif_pos hi, herr]

/-- One step of the worker loop when the current action's handler returns
normally: record the index and continue at the jump target or the next
sequential index. -/
theorem runFrom_ok (oracle : DetectOracle) (sim : Bool) (m : String → Option Nat)
    (fuel i : Nat) (st : RunState) (hi : i < st.actions.length)
    (hok : (execute oracle sim m i st.actions[i] st.ctx st.loopIters st.detectCalls).error
      = none) :
    runFrom oracle sim m (fuel + 1) i st =
      (let out := execute oracle sim m i st.actions[i] st.ctx st.loopIters st.detectCalls
       let rest := runFrom oracle sim m fuel (out.jump.getD (i + 1))
         { actions := st.actions.set i out.action, ctx := out.ctx,
           loopIters := out.loopIters, detectCalls := out.detectCalls }
       { actions := rest.actions, ctx := rest.ctx, executed := i :: rest.executed,
         statuses := rest.statuses, events := out.events ++ rest.events,
         errorIdx := rest.errorIdx, completed := rest.completed }) := by
  simp only [runFrom, dif_pos hi, hok]

/-- The worker loop over a timeline of passive, well-formed actions visits
the remaining indices in ascending order exactly once each and then emits
`"Idle"`, leaving the timeline and context untouched. -/
theorem runFrom_passive (oracle : DetectOracle) (sim : Bool) (m : String → Option Nat) :
    ∀ (n i : Nat) (st : RunState),
      (∀ a ∈ st.actions, a.type ∉ passiveTypes ∧ 0 ≤ a.params.ms.getD 0 ∧
        0 ≤ a.delay_before_ms ∧ 0 ≤ a.delay_after_ms) →
      i + n = st.actions.length →
      (runFrom oracle sim m (n + 1) i st).executed = List.range' i n
      ∧ (runFrom oracle sim m (n + 1) i st).statuses = ["Idle"]
      ∧ (runFrom oracle sim m (n + 1) i st).errorIdx = none
      ∧ (runFrom oracle sim m (n + 1) i st).completed = true
      ∧ (runFrom oracle sim m (n + 1) i st).actions = st.actions
      ∧ (runFrom oracle sim m (n + 1) i st).ctx = st.ctx := by
  intro n
  induction n with
  | zero =>
    intro i st _ hlen
    have hi : ¬ i < st.actions.length := by omega
    simp [runFrom, hi, List.range']
  | succ k ih =>
    intro i st hwf hlen
    have hi : i < st.actions.length := by omega
    obtain ⟨hty, hms, hdb, hda⟩ := hwf _ (List.getElem_mem _)
    obtain ⟨e, he⟩ := execute_passive oracle sim m i st.actions[i] st.ctx st.loopIters
      st.detectCalls hty hms hdb hda
    have hok : (execute oracle sim m i st.actions[i] st.ctx st.loopIters
        st.detectCalls).error = none := by rw [he]
    have hset : st.actions.set i st.actions[i] = st.actions :=
      list_set_getElem_self st.actions i hi
    have hrec := ih (i + 1) st hwf (by omega)
    rw [runFrom_ok oracle sim m (k + 1) i st hi hok]
    simp only [he, hset, Option.getD_none]
    refine ⟨?_, hrec.2.1, hrec.2.2.1, hrec.2.2.2.1, hrec.2.2.2.2.1, hrec.2.2.2.2.2⟩
    rw [hrec.1, List.range'_succ i k 1]

/-- C1: for every timeline containing no `detect`, `conditional_jump`, or
`loop_until` actions (well-formed per the data model: non-negative delays
and `wait` durations), `start()` executes every action exactly once in
ascending index order and then emits the status string `"Idle"`. -/
theorem C1_straightline_runs_in_order (oracle : DetectOracle) (sim : Bool)
    (actions : List Action)
    (hty : ∀ a ∈ actions, a.type ∉ passiveTypes)
    (hwf : ∀ a ∈ actions, 0 ≤ a.params.ms.getD 0 ∧
      0 ≤ a.delay_before_ms ∧ 0 ≤ a.delay_after_ms) :
    (run oracle sim actions (actions.length + 1)).executed = List.range actions.length
    ∧ (run oracle sim actions (actions.length + 1)).statuses = ["Running", "Idle"]
    ∧ (run oracle sim actions (actions.length + 1)).completed = true := by
  have h := runFrom_passive oracle sim (jumpMap actions) actions.length 0
    { actions := actions, ctx := { last_detect := none }, loopIters := fun _ => 0,
      detectCalls := 0 }
    (fun a ha => ⟨hty a ha, (hwf a ha).1, (hwf a ha).2.1, (hwf a ha).2.2⟩)
    (by simp)
  simp only [run]
  refine ⟨?_, ?_, h.2.2.2.1⟩
  · rw [h.1, List.range_eq_range']
  · rw [h.2.1]

/-- C1 witness: a concrete three-action straight-line timeline. -/
theorem C1_straightline_witness :
    (run oracleNever true tlC1w 4).executed = List.range 3
    ∧ (run oracleNever true tlC1w 4).statuses = ["Running", "Idle"]
    ∧ (run oracleNever true tlC1w 4).completed = true :=
  C1_straightline_runs_in_order oracleNever true tlC1w (by decide) (by decide)

/-! ## Engine: per-iteration frame lemmas -/

/-- Reduction of `execOnce` on a `wait` action. -/
theorem execOnce_eq_wait (oracle : DetectOracle) (sim : Bool) (m : String → Option Nat)
    (ci : Nat) (st : IterState) (h : st.action.type = "wait") :
    execOnce oracle sim m ci st =
      (if st.action.params.ms.getD 0 < 0 then .err st "sleep length must be non-negative"
       else .cont { st with events := st.events ++ [Ev.waitSleep (st.action.params.ms.getD 0)] }) := by
  simp [execOnce, h]

/-- Reduction of `execOnce` on a `mouse_click` action. -/
theorem execOnce_eq_mouse (oracle : DetectOracle) (sim : Bool) (m : String → Option Nat)
    (ci : Nat) (st : IterState) (h : st.action.type = "mouse_click") :
    execOnce oracle sim m ci st =
      .cont { st with events := st.events ++ [Ev.click st.action.params.x st.action.params.y
        (st.action.params.button.getD "left") (!sim)] } := by
  simp [execOnce, h]

/-- Reduction of `execOnce` on a `key_sequence` action. -/
theorem execOnce_eq_key (oracle : DetectOracle) (sim : Bool) (m : String → Option Nat)
    (ci : Nat) (st : IterState) (h : st.action.type = "key_sequence") :
    execOnce oracle sim m ci st =
      .cont { st with events := st.events ++ [Ev.keys st.action.params.sequence
        (st.action.params.text_mode.getD true) (!sim)] } := by
  simp [execOnce, h]

/-- Reduction of `execOnce` on a `detect` action. -/
theorem execOnce_eq_detect (oracle : DetectOracle) (sim : Bool) (m : String → Option Nat)
    (ci : Nat) (st : IterState) (h : st.action.type = "detect") :
    execOnce oracle sim m ci st =
      (match detectLd oracle st.detectCalls st.action.params with
       | .error msg => .err { st with
           events := st.events ++ [Ev.detect (st.action.params.method.getD "template")
             (st.action.params.conf.getD (mkRat 17 20))],
           detectCalls := st.detectCalls + 1 } msg
       | .ok ld => .cont { st with
           events := st.events ++ [Ev.detect (st.action.params.method.getD "template")
             (st.action.params.conf.getD (mkRat 17 20))],
           detectCalls := st.detectCalls + 1,
           action := { st.action with result := some (st.action.result.getD ld) },
           ctx := { last_detect := some ld } }) := by
  cases hld : detectLd oracle st.detectCalls st.action.params with
  | error msg => simp [execOnce, h, hld]
  | ok ld => simp [execOnce, h, hld]

/-- Reduction of `execOnce` on a `conditional_jump` action. -/
theorem execOnce_eq_cj (oracle : DetectOracle) (sim : Bool) (m : String → Option Nat)
    (ci : Nat) (st : IterState) (h : st.action.type = "conditional_jump") :
    execOnce oracle sim m ci st =
      (match (if condJumpCond st.ctx (st.action.params.test.getD "last_detect")
          then st.action.params.true_target else st.action.params.false_target) with
       | some s =>
           if s = "" then .cont st
           else match m s with
             | some j => .ret st (some j)
             | none => .cont st
       | none => .cont st) := by
  simp [execOnce, h]

/-- Reduction of `execOnce` on a `label` action. -/
theorem execOnce_eq_label (oracle : DetectOracle) (sim : Bool) (m : String → Option Nat)
    (ci : Nat) (st : IterState) (h : st.action.type = "label") :
    execOnce oracle sim m ci st = .cont st := by
  simp [execOnce, h]

/-- Reduction of `execOnce` on a `loop_until` action. -/
theorem execOnce_eq_loop (oracle : DetectOracle) (sim : Bool) (m : String → Option Nat)
    (ci : Nat) (st : IterState) (h : st.action.type = "loop_until") :
    execOnce oracle sim m ci st =
      (if loopUntilCond st.ctx (untilTest st.action.params) (untilValue st.action.params)
       then .ret st none
       else if st.action.params.max_iters.getD 100 ≤ ((st.loopIters ci : Int))
       then .ret st none
       else
         let st2 : IterState := { st with loopIters :=
           fun k => if k = ci then st.loopIters ci + 1 else st.loopIters k }
         match st.action.params.label with
         | some s =>
             if s = "" then .ret st2 none
             else match m s with
               | some j => .ret st2 (some j)
               | none => .ret st2 none
         | none => .ret st2 none) := by
  simp [execOnce, h]

/-- Reduction of `execOnce` on an unknown action type. -/
theorem execOnce_eq_unknown (oracle : DetectOracle) (sim : Bool) (m : String → Option Nat)
    (ci : Nat) (st : IterState)
    (h1 : st.action.type ≠ "wait") (h2 : st.action.type ≠ "mouse_click")
    (h3 : st.action.type ≠ "key_sequence") (h4 : st.action.type ≠ "detect")
    (h5 : st.action.type ≠ "conditional_jump") (h6 : st.action.type ≠ "label")
    (h7 : st.action.type ≠ "loop_until") :
    execOnce oracle sim m ci st = .cont st := by
  simp [execOnce, h1, h2, h3, h4, h5, h6, h7]

/-- One iteration of any handler only appends events (never a
`delayAfterMs` sleep, and detect events always carry the
`params.get("conf", 0.85)` threshold), and mutates the action at most in
its `result` field — leaving non-`detect` actions entirely unchanged. -/
theorem execOnce_frame (oracle : DetectOracle) (sim : Bool) (m : String → Option Nat)
    (ci : Nat) (st : IterState) :
    ∃ e, (execOnce oracle sim m ci st).state.events = st.events ++ e
      ∧ (∀ ms, Ev.sleepAfter ms ∉ e)
      ∧ (∀ method conf, Ev.detect method conf ∈ e →
          conf = st.action.params.conf.getD (mkRat 17 20))
      ∧ stripResult (execOnce oracle sim m ci st).state.action = stripResult st.action
      ∧ (st.action.type ≠ "detect" → (execOnce oracle sim m ci st).state.action = st.action) := by
  by_cases h1 : st.action.type = "wait"
  · rw [execOnce_eq_wait oracle sim m ci st h1]
    by_cases hms : st.action.params.ms.getD 0 < 0
    · exact ⟨[], by simp [hms, OnceOut.state]⟩
    · exact ⟨[Ev.waitSleep (st.action.params.ms.getD 0)], by simp [hms, OnceOut.state]⟩
  by_cases h2 : st.action.type = "mouse_click"
  · rw [execOnce_eq_mouse oracle sim m ci st h2]
    exact ⟨[Ev.click st.action.params.x st.action.params.y
      (st.action.params.button.getD "left") (!sim)], by simp [OnceOut.state]⟩
  by_cases h3 : st.action.type = "key_sequence"
  · rw [execOnce_eq_key oracle sim m ci st h3]
    exact ⟨[Ev.keys st.action.params.sequence
      (st.action.params.text_mode.getD true) (!sim)], by simp [OnceOut.state]⟩
  by_cases h4 : st.action.type = "detect"
  · rw [execOnce_eq_detect oracle sim m ci st h4]
    cases hld : detectLd oracle st.detectCalls st.action.params with
    | error msg =>
        exact ⟨[Ev.detect (st.action.params.method.getD "template")
          (st.action.params.conf.getD (mkRat 17 20))], by simp [OnceOut.state, h4]⟩
    | ok ld =>
        refine ⟨[Ev.detect (st.action.params.method.getD "template")
          (st.action.params.conf.getD (mkRat 17 20))], rfl, by simp, ?_, ?_, ?_⟩
        · intro mth cf hmem
          have heq := List.mem_singleton.mp hmem
          injection heq with hm hc
        · simp [OnceOut.state, stripResult]
        · intro hne; exact absurd h4 hne
  by_cases h5 : st.action.type = "conditional_jump"
  · rw [execOnce_eq_cj oracle sim m ci st h5]
    rcases htid : (if condJumpCond st.ctx (st.action.params.test.getD "last_detect")
        then st.action.params.true_target else st.action.params.false_target) with _ | s
    · exact ⟨[], by simp [OnceOut.state]⟩
    · by_cases hs : s = ""
      · exact ⟨[], by simp [OnceOut.state, hs]⟩
      · cases hm : m s with
        | some j => exact ⟨[], by simp [OnceOut.state, hs, hm]⟩
        | none => exact ⟨[], by simp [OnceOut.state, hs, hm]⟩
  by_cases h6 : st.action.type = "label"
  · rw [execOnce_eq_label oracle sim m ci st h6]
    exact ⟨[], by simp [OnceOut.state]⟩
  by_cases h7 : st.action.type = "loop_until"
  · rw [execOnce_eq_loop oracle sim m ci st h7]
    by_cases hcond : loopUntilCond st.ctx (untilTest st.action.params) (untilValue st.action.params)
    · exact ⟨[], by simp [OnceOut.state, hcond]⟩
    by_cases hmax : st.action.params.max_iters.getD 100 ≤ ((st.loopIters ci : Int))
    · exact ⟨[], by simp [OnceOut.state, hcond, hmax]⟩
    rcases hlab : st.action.params.label with _ | s
    · exact ⟨[], by simp [OnceOut.state, hcond, hmax, hlab]⟩
    by_cases hs : s = ""
    · exact ⟨[], by simp [OnceOut.state, hcond, hmax, hlab, hs]⟩
    cases hm : m s with
    | some j => exact ⟨[], by simp [OnceOut.state, hcond, hmax, hlab, hs, hm]⟩
    | none => exact ⟨[], by simp [OnceOut.state, hcond, hmax, hlab, hs, hm]⟩
  rw [execOnce_eq_unknown oracle sim m ci st h1 h2 h3 h4 h5 h6 h7]
  exact ⟨[], by simp [OnceOut.state]⟩

/-- The whole repeat loop only appends events (never a `delayAfterMs`
sleep; detect events carry the `params.get("conf", 0.85)` threshold of the
action being executed) and mutates the action at most in `result`. -/
theorem execIters_frame (oracle : DetectOracle) (sim : Bool) (m : String → Option Nat)
    (ci : Nat) :
    ∀ (n : Nat) (st : IterState),
      ∃ e, (execIters oracle sim m ci n st).state.events = st.events ++ e
        ∧ (∀ ms, Ev.sleepAfter ms ∉ e)
        ∧ (∀ method conf, Ev.detect method conf ∈ e →
            conf = st.action.params.conf.getD (mkRat 17 20))
        ∧ stripResult (execIters oracle sim m ci n st).state.action = stripResult st.action
        ∧ (st.action.type ≠ "detect" →
            (execIters oracle sim m ci n st).state.action = st.action) := by
  intro n
  induction n with
  | zero =>
    intro st
    exact ⟨[], by simp [execIters, IterOutcome.state]⟩
  | succ k ih =>
    intro st
    obtain ⟨e1, hev1, hsa1, hdc1, hstrip1, hsame1⟩ := execOnce_frame oracle sim m ci st
    have hparams : (execOnce oracle sim m ci st).state.action.params = st.action.params := by
      have := congrArg Action.params hstrip1
      simpa [stripResult] using this
    have htype : (execOnce oracle sim m ci st).state.action.type = st.action.type := by
      have := congrArg Action.type hstrip1
      simpa [stripResult] using this
    cases hout : execOnce oracle sim m ci st with
    | ret st2 v =>
        rw [hout] at hev1 hstrip1 hsame1
        simp only [OnceOut.state] at hev1 hstrip1 hsame1
        have hstep : execIters oracle sim m ci (k + 1) st = .earlyReturn st2 1 v := by
          simp [execIters, hout]
        refine ⟨e1, ?_, hsa1, hdc1, ?_, ?_⟩
        · rw [hstep]; exact hev1
        · rw [hstep]; exact hstrip1
        · intro hne; rw [hstep]; exact hsame1 hne
    | err st2 msg =>
        rw [hout] at hev1 hstrip1 hsame1
        simp only [OnceOut.state] at hev1 hstrip1 hsame1
        have hstep : execIters oracle sim m ci (k + 1) st = .errored st2 1 msg := by
          simp [execIters, hout]
        refine ⟨e1, ?_, hsa1, hdc1, ?_, ?_⟩
        · rw [hstep]; exact hev1
        · rw [hstep]; exact hstrip1
        · intro hne; rw [hstep]; exact hsame1 hne
    | cont st2 =>
        rw [hout] at hev1 hstrip1 hsame1 hparams htype
        simp only [OnceOut.state] at hev1 hstrip1 hsame1 hparams htype
        obtain ⟨e2, hev2, hsa2, hdc2, hstrip2, hsame2⟩ := ih st2
        refine ⟨e1 ++ e2, ?_, ?_, ?_, ?_, ?_⟩
        · have : (execIters oracle sim m ci (k + 1) st).state
              = (execIters oracle sim m ci k st2).state := by
            simp only [execIters, hout]
            cases execIters oracle sim m ci k st2 <;> rfl
          rw [this, hev2, hev1, List.append_assoc]
        · intro ms hin
          rcases List.mem_append.mp hin with h | h
          · exact hsa1 ms h
          · exact hsa2 ms h
        · intro mth cf hin
          rcases List.mem_append.mp hin with h | h
          · exact hdc1 mth cf h
          · rw [hdc2 mth cf h, hparams]
        · have : (execIters oracle sim m ci (k + 1) st).state
              = (execIters oracle sim m ci k st2).state := by
            simp only [execIters, hout]
            cases execIters oracle sim m ci k st2 <;> rfl
          rw [this, hstrip2, hstrip1]
        · intro hne
          have : (execIters oracle sim m ci (k + 1) st).state
              = (execIters oracle sim m ci k st2).state := by
            simp only [execIters, hout]
            cases execIters oracle sim m ci k st2 <;> rfl
          rw [this, hsame2 (by rw [htype]; exact hne), hsame1 hne]

/-- `Engine._execute` only mutates the action in its `result` field (and
not at all for non-`detect` actions), and every detect event it emits
carries the `params.get("conf", 0.85)` threshold. -/
theorem execute_frame (oracle : DetectOracle) (sim : Bool) (m : String → Option Nat)
    (ci : Nat) (a : Action) (ctx : Ctx) (li : Nat → Nat) (dc : Nat) :
    stripResult (execute oracle sim m ci a ctx li dc).action = stripResult a
    ∧ (a.type ≠ "detect" → (execute oracle sim m ci a ctx li dc).action = a)
    ∧ (∀ method conf, Ev.detect method conf ∈ (execute oracle sim m ci a ctx li dc).events →
        conf = a.params.conf.getD (mkRat 17 20)) := by
  by_cases hdb : a.delay_before_ms < 0
  · constructor
    · simp [execute, hdb]
    constructor
    · intro _; simp [execute, hdb]
    · intro mth cf hin
      simp [execute, hdb] at hin
  · obtain ⟨e, hev, hsa, hdc, hstrip, hsame⟩ := execIters_frame oracle sim m ci
      (max 1 a.repeat_count).toNat
      { action := a, ctx := ctx, loopIters := li, detectCalls := dc,
        events := if a.delay_before_ms ≠ 0 then [Ev.sleepBefore a.delay_before_ms] else [] }
    cases hout : execIters oracle sim m ci (max 1 a.repeat_count).toNat
        { action := a, ctx := ctx, loopIters := li, detectCalls := dc,
          events := if a.delay_before_ms ≠ 0 then [Ev.sleepBefore a.delay_before_ms] else [] } with
    | earlyReturn st2 k v =>
        rw [hout] at hev hstrip hsame
        simp only [IterOutcome.state] at hev hstrip hsame
        refine ⟨?_, ?_, ?_⟩
        · simp only [execute, hout, if_neg hdb]
          exact hstrip
        · intro hne; simp only [execute, hout, if_neg hdb]; exact hsame hne
        · intro mth cf hin
          simp only [execute, hout, if_neg hdb] at hin
          rw [hev] at hin
          rcases List.mem_append.mp hin with h | h
          · by_cases hz : a.delay_before_ms ≠ 0 <;> simp [hz] at h
          · exact hdc mth cf h
    | errored st2 k msg =>
        rw [hout] at hev hstrip hsame
        simp only [IterOutcome.state] at hev hstrip hsame
        refine ⟨?_, ?_, ?_⟩
        · simp only [execute, hout, if_neg hdb]
          exact hstrip
        · intro hne; simp only [execute, hout, if_neg hdb]; exact hsame hne
        · intro mth cf hin
          simp only [execute, hout, if_neg hdb] at hin
          rw [hev] at hin
          rcases List.mem_append.mp hin with h | h
          · by_cases hz : a.delay_before_ms ≠ 0 <;> simp [hz] at h
          · exact hdc mth cf h
    | fellThrough st2 k =>
        rw [hout] at hev hstrip hsame
        simp only [IterOutcome.state] at hev hstrip hsame
        by_cases hda : a.delay_after_ms < 0
        · refine ⟨?_, ?_, ?_⟩
          · simp only [execute, hout, if_neg hdb, if_pos hda]
            exact hstrip
          · intro hne; simp only [execute, hout, if_neg hdb, if_pos hda]; exact hsame hne
          · intro mth cf hin
            simp only [execute, hout, if_neg hdb, if_pos hda] at hin
            rw [hev] at hin
            rcases List.mem_append.mp hin with h | h
            · by_cases hz : a.delay_before_ms ≠ 0 <;> simp [hz] at h
            · exact hdc mth cf h
        · refine ⟨?_, ?_, ?_⟩
          · simp only [execute, hout, if_neg hdb, if_neg hda]
            exact hstrip
          · intro hne; simp only [execute, hout, if_neg hdb, if_neg hda]; exact hsame hne
          · intro mth cf hin
            simp only [execute, hout, if_neg hdb, if_neg hda] at hin
            rw [hev] at hin
            rcases List.mem_append.mp hin with h | h
            · rcases List.mem_append.mp h with h2 | h2
              · by_cases hz : a.delay_before_ms ≠ 0 <;> simp [hz] at h2
              · exact hdc mth cf h2
            · by_cases hz : a.delay_after_ms ≠ 0 <;> simp [hz] at h

/-! ## Claim C4: detect confidence default -/

/-- C4 (counterexample): a `detect` action with `method = "feature"` and no
`conf` param passes threshold `0.85` to the matcher, not the `0.5` that
`feature_match`'s own signature would default to — refuting the claim that
the engine's threshold defaults to `0.5` for the feature method. -/
theorem C4_feature_conf_default_cex :
    (execute oracleNever true (fun _ => none) 0 aC4 {} (fun _ => 0) 0).events
      = [Ev.detect "feature" (mkRat 17 20)]
    ∧ mkRat 17 20 ≠ feature_match_default_conf := by
  exact ⟨by decide, by decide⟩

/-- C4 (amended): when a detect action's params omit `conf`, the acceptance
threshold passed to the detection call is `0.85` regardless of
`params.method` (including `"feature"`); `feature_match`'s `0.5` default
applies only to direct calls that omit the threshold argument, which the
engine never makes. -/
theorem C4_amended_threshold_is_085_for_all_methods (oracle : DetectOracle) (sim : Bool)
    (m : String → Option Nat) (ci : Nat) (a : Action) (ctx : Ctx) (li : Nat → Nat) (dc : Nat)
    (hconf : a.params.conf = none) :
    ∀ method conf, Ev.detect method conf ∈ (execute oracle sim m ci a ctx li dc).events →
      conf = mkRat 17 20 := by
  intro mth cf hin
  have h := (execute_frame oracle sim m ci a ctx li dc).2.2 mth cf hin
  rw [h, hconf]
  rfl

/-- C4 amended witness: the concrete feature-method detect action with
omitted `conf` emits a detect call, and its threshold is `0.85`. -/
theorem C4_amended_witness :
    Ev.detect "feature" (mkRat 17 20)
      ∈ (execute oracleNever true (fun _ => none) 0 aC4 {} (fun _ => 0) 0).events
    ∧ mkRat 17 20 = mkRat 17 20 :=
  ⟨by decide, C4_amended_threshold_is_085_for_all_methods oracleNever true (fun _ => none) 0
    aC4 {} (fun _ => 0) 0 rfl "feature" (mkRat 17 20) (by decide)⟩

/-! ## Claim C3: the `result` snapshot -/

/-- Re-attaching the `result` value an action already holds is the
identity. -/
theorem action_result_eta (a : Action) (r : DetectStored) (h : a.result = some r) :
    { a with result := some r } = a := by
  cases a
  simp_all

/-- The repeat-loop state after a `cont` step. -/
theorem execIters_state_cont (oracle : DetectOracle) (sim : Bool) (m : String → Option Nat)
    (ci k : Nat) (st st2 : IterState)
    (hout : execOnce oracle sim m ci st = .cont st2) :
    (execIters oracle sim m ci (k + 1) st).state = (execIters oracle sim m ci k st2).state := by
  simp only [execIters, hout]
  cases execIters oracle sim m ci k st2 <;> rfl

/-- Once a detect action already carries a `result`, further iterations of
the detect handler leave the action unchanged (`setdefault` keeps the
existing value). -/
theorem execIters_result_stable (oracle : DetectOracle) (sim : Bool) (m : String → Option Nat)
    (ci : Nat) :
    ∀ (n : Nat) (st : IterState) (r : DetectStored),
      st.action.type = "detect" → st.action.result = some r →
      (execIters oracle sim m ci n st).state.action = st.action := by
  intro n
  induction n with
  | zero => intro st r _ _; rfl
  | succ k ih =>
    intro st r hty hres
    cases hld : detectLd oracle st.detectCalls st.action.params with
    | error msg =>
        have hout : execOnce oracle sim m ci st = OnceOut.err
            { st with
              events := st.events ++ [Ev.detect (st.action.params.method.getD "template")
                (st.action.params.conf.getD (mkRat 17 20))]
              detectCalls := st.detectCalls + 1 } msg := by
          rw [execOnce_eq_detect oracle sim m ci st hty, hld]
        have hstep : execIters oracle sim m ci (k + 1) st = IterOutcome.errored
            { st with
              events := st.events ++ [Ev.detect (st.action.params.method.getD "template")
                (st.action.params.conf.getD (mkRat 17 20))]
              detectCalls := st.detectCalls + 1 } 1 msg := by
          simp [execIters, hout]
        rw [hstep]
        rfl
    | ok ld =>
        have hout : execOnce oracle sim m ci st = OnceOut.cont
            { st with
              events := st.events ++ [Ev.detect (st.action.params.method.getD "template")
                (st.action.params.conf.getD (mkRat 17 20))]
              detectCalls := st.detectCalls + 1
              action := { st.action with result := some (st.action.result.getD ld) }
              ctx := { last_detect := some ld } } := by
          rw [execOnce_eq_detect oracle sim m ci st hty, hld]
        have hres2 : ({ st.action with result := some (st.action.result.getD ld) } : Action).result
            = some r := by
          show some (st.action.result.getD ld) = some r
          rw [hres]
          rfl
        have hact : ({ st.action with result := some (st.action.result.getD ld) } : Action)
            = st.action := by
          rw [hres]
          exact action_result_eta st.action r hres
        rw [execIters_state_cont oracle sim m ci k st _ hout]
        have hih := ih { st with
            events := st.events ++ [Ev.detect (st.action.params.method.getD "template")
              (st.action.params.conf.getD (mkRat 17 20))]
            detectCalls := st.detectCalls + 1
            action := { st.action with result := some (st.action.result.getD ld) }
            ctx := { last_detect := some ld } } r hty hres2
        rw [hih]
        exact hact

/-- `Engine._execute` on a detect action that already carries a `result`
returns the action unchanged: the `setdefault` never overwrites. -/
theorem execute_result_stable (oracle : DetectOracle) (sim : Bool) (m : String → Option Nat)
    (ci : Nat) (a : Action) (ctx : Ctx) (li : Nat → Nat) (dc : Nat) (r : DetectStored)
    (hty : a.type = "detect") (hres : a.result = some r) :
    (execute oracle sim m ci a ctx li dc).action = a := by
  by_cases hdb : a.delay_before_ms < 0
  · simp [execute, hdb]
  · have hst := execIters_result_stable oracle sim m ci (max 1 a.repeat_count).toNat
      { action := a, ctx := ctx, loopIters := li, detectCalls := dc,
        events := if a.delay_before_ms ≠ 0 then [Ev.sleepBefore a.delay_before_ms] else [] }
      r hty hres
    cases hout : execIters oracle sim m ci (max 1 a.repeat_count).toNat
        { action := a, ctx := ctx, loopIters := li, detectCalls := dc,
          events := if a.delay_before_ms ≠ 0 then [Ev.sleepBefore a.delay_before_ms] else [] } with
    | earlyReturn st2 k v =>
        rw [hout] at hst
        simp only [execute, hout, if_neg hdb]
        exact hst
    | errored st2 k msg =>
        rw [hout] at hst
        simp only [execute, hout, if_neg hdb]
        exact hst
    | fellThrough st2 k =>
        rw [hout] at hst
        by_cases hda : a.delay_after_ms < 0
        · simp only [execute, hout, if_neg hdb, if_pos hda]
          exact hst
        · simp only [execute, hout, if_neg hdb, if_neg hda]
          exact hst

/-- `Engine._execute` on a detect action with no `result` yet attaches the
outcome of the execution's **first** detection (the `setdefault` fires on
iteration one and later iterations keep it). -/
theorem execute_detect_sets_first (oracle : DetectOracle) (sim : Bool) (m : String → Option Nat)
    (ci : Nat) (a : Action) (ctx : Ctx) (li : Nat → Nat) (dc : Nat) (d : DetectStored)
    (hty : a.type = "detect") (hres : a.result = none) (hdb : 0 ≤ a.delay_before_ms)
    (hld : detectLd oracle dc a.params = .ok d) :
    (execute oracle sim m ci a ctx li dc).action = { a with result := some d } := by
  have hdb2 : ¬ a.delay_before_ms < 0 := not_lt.mpr hdb
  obtain ⟨mm, hmm⟩ : ∃ mm, (max 1 a.repeat_count).toNat = mm + 1 := by
    have h1 : (1 : Int) ≤ max 1 a.repeat_count := le_max_left 1 _
    have h2 : 1 ≤ (max 1 a.repeat_count).toNat := by
      have h3 := Int.toNat_le_toNat h1
      simp only [Int.toNat_one] at h3
      exact h3
    exact ⟨(max 1 a.repeat_count).toNat - 1, by omega⟩
  have hout : execOnce oracle sim m ci
      { action := a, ctx := ctx, loopIters := li, detectCalls := dc,
        events := if a.delay_before_ms ≠ 0 then [Ev.sleepBefore a.delay_before_ms] else [] }
      = OnceOut.cont
      { action := { a with result := some d }, ctx := { last_detect := some d },
        loopIters := li, detectCalls := dc + 1,
        events := (if a.delay_before_ms ≠ 0 then [Ev.sleepBefore a.delay_before_ms] else [])
          ++ [Ev.detect (a.params.method.getD "template") (a.params.conf.getD (mkRat 17 20))] } := by
    rw [execOnce_eq_detect oracle sim m ci _ hty]
    simp [hld, hres]
  have hstate : (execIters oracle sim m ci (mm + 1)
      { action := a, ctx := ctx, loopIters := li, detectCalls := dc,
        events := if a.delay_before_ms ≠ 0
          then [Ev.sleepBefore a.delay_before_ms] else [] }).state.action
      = { a with result := some d } := by
    rw [execIters_state_cont oracle sim m ci mm _ _ hout]
    exact execIters_result_stable oracle sim m ci mm _ d hty rfl
  cases hit : execIters oracle sim m ci (mm + 1)
      { action := a, ctx := ctx, loopIters := li, detectCalls := dc,
        events := if a.delay_before_ms ≠ 0
          then [Ev.sleepBefore a.delay_before_ms] else [] } with
  | earlyReturn st2 k v =>
      rw [hit] at hstate
      simp only [execute, hmm, hit, if_neg hdb2]
      exact hstate
  | errored st2 k msg =>
      rw [hit] at hstate
      simp only [execute, hmm, hit, if_neg hdb2]
      exact hstate
  | fellThrough st2 k =>
      rw [hit] at hstate
      by_cases hda : a.delay_after_ms < 0
      · simp only [execute, hmm, hit, if_neg hdb2, if_pos hda]
        exact hstate
      · simp only [execute, hmm, hit, if_neg hdb2, if_neg hda]
        exact hstate

/-- `ResultOnlyDiff` is reflexive. -/
theorem resultOnlyDiff_refl (l : List Action) : ResultOnlyDiff l l :=
  ⟨rfl, fun _ => ⟨rfl, fun _ => rfl⟩⟩

/-- `ResultOnlyDiff` composes. -/
theorem resultOnlyDiff_trans {l1 l2 l3 : List Action}
    (h12 : ResultOnlyDiff l1 l2) (h23 : ResultOnlyDiff l2 l3) : ResultOnlyDiff l1 l3 := by
  refine ⟨h23.1.trans h12.1, fun k => ?_⟩
  obtain ⟨hs12, he12⟩ := h12.2 k
  obtain ⟨hs23, he23⟩ := h23.2 k
  refine ⟨hs23.trans hs12, fun hne => ?_⟩
  have hty12 : (l2.getD k {}).type = (l1.getD k {}).type := by
    have h := congrArg Action.type hs12
    simpa [stripResult] using h
  rw [he23 (by rw [hty12]; exact hne), he12 hne]

/-- Replacing one entry by a result-only variant is a `ResultOnlyDiff`. -/
theorem resultOnlyDiff_set (l : List Action) (i : Nat) (hi : i < l.length) (a2 : Action)
    (hstrip : stripResult a2 = stripResult l[i])
    (hsame : l[i].type ≠ "detect" → a2 = l[i]) :
    ResultOnlyDiff l (l.set i a2) := by
  refine ⟨by simp, fun k => ?_⟩
  by_cases hk : k = i
  · subst hk
    have hgl : l.getD k {} = l[k] := by
      rw [List.getD_eq_getElem?_getD, List.getElem?_eq_getElem hi]
      rfl
    have hgs : (l.set k a2).getD k {} = a2 := by
      rw [List.getD_eq_getElem?_getD, List.getElem?_set_self]
      · rfl
      · exact hi
    rw [hgl, hgs]
    exact ⟨hstrip, hsame⟩
  · have hgs : (l.set i a2).getD k {} = l.getD k {} := by
      rw [List.getD_eq_getElem?_getD, List.getD_eq_getElem?_getD,
        List.getElem?_set_ne (by omega)]
    rw [hgs]
    exact ⟨rfl, fun _ => rfl⟩

/-- The whole worker loop mutates its timeline only through the per-action
`result` writes of the `detect` handler. -/
theorem runFrom_result_only (oracle : DetectOracle) (sim : Bool) (m : String → Option Nat) :
    ∀ (fuel i : Nat) (st : RunState),
      ResultOnlyDiff st.actions (runFrom oracle sim m fuel i st).actions := by
  intro fuel
  induction fuel with
  | zero =>
    intro i st
    exact resultOnlyDiff_refl _
  | succ n ih =>
    intro i st
    by_cases hi : i < st.actions.length
    · have hframe := execute_frame oracle sim m i st.actions[i] st.ctx st.loopIters st.detectCalls
      have hstep := resultOnlyDiff_set st.actions i hi
        (execute oracle sim m i st.actions[i] st.ctx st.loopIters st.detectCalls).action
        hframe.1 hframe.2.1
      cases herr : (execute oracle sim m i st.actions[i] st.ctx st.loopIters st.detectCalls).error with
      | some msg =>
          rw [runFrom_error oracle sim m n i st msg hi herr]
          exact hstep
      | none =>
          rw [runFrom_ok oracle sim m n i st hi herr]
          exact resultOnlyDiff_trans hstep (ih _ _)
    · rw [runFrom_stop oracle sim m n i st hi]
      exact resultOnlyDiff_refl _

/-- C3 (counterexample): the same detect action executed twice, failing
first (`found = false`) and succeeding second (`found = true`): the
attached `result` still holds the first outcome, while the run context's
`last_detect` holds the most recent one — refuting the claim that `result`
equals the most recent detection outcome of that action. -/
theorem C3_result_keeps_first_outcome_cex :
    ((run oracleC3 true tlC3 10).actions.getD 0 {}).result = some ldFalse
    ∧ (run oracleC3 true tlC3 10).ctx.last_detect = some ldTrue
    ∧ ldFalse ≠ ldTrue := by
  exact ⟨by decide, by decide, by decide⟩

/-- C3 (amended): the `result` field attached to a detect action is
set-if-absent (`setdefault`): a detect action already carrying a `result`
is returned unchanged; a detect action without one gets the outcome of the
**first** detection of that execution; and across a whole run, the
engine's only mutation of its input timeline is these `result` writes
(non-`detect` actions are returned untouched). -/
theorem C3_amended_result_is_first_outcome :
    (∀ (oracle : DetectOracle) (sim : Bool) (m : String → Option Nat) (ci : Nat) (a : Action)
        (ctx : Ctx) (li : Nat → Nat) (dc : Nat) (r : DetectStored),
      a.type = "detect" → a.result = some r →
      (execute oracle sim m ci a ctx li dc).action = a)
    ∧ (∀ (oracle : DetectOracle) (sim : Bool) (m : String → Option Nat) (ci : Nat) (a : Action)
        (ctx : Ctx) (li : Nat → Nat) (dc : Nat) (d : DetectStored),
      a.type = "detect" → a.result = none → 0 ≤ a.delay_before_ms →
      detectLd oracle dc a.params = .ok d →
      (execute oracle sim m ci a ctx li dc).action = { a with result := some d })
    ∧ (∀ (oracle : DetectOracle) (sim : Bool) (actions : List Action) (fuel : Nat),
      ResultOnlyDiff actions (run oracle sim actions fuel).actions) := by
  refine ⟨?_, ?_, ?_⟩
  · intro oracle sim m ci a ctx li dc r hty hres
    exact execute_result_stable oracle sim m ci a ctx li dc r hty hres
  · intro oracle sim m ci a ctx li dc d hty hres hdb hld
    exact execute_detect_sets_first oracle sim m ci a ctx li dc d hty hres hdb hld
  · intro oracle sim actions fuel
    have h := runFrom_result_only oracle sim (jumpMap actions) fuel 0
      { actions := actions, ctx := { last_detect := none }, loopIters := fun _ => 0,
        detectCalls := 0 }
    simpa [run] using h

/-- C3 amended witness: a fresh detect action gets the first detection
outcome attached. -/
theorem C3_amended_witness :
    (execute oracleNever true (fun _ => none) 0 aC3w {} (fun _ => 0) 0).action
      = { aC3w with result := some ldFalse } :=
  C3_amended_result_is_first_outcome.2.1 oracleNever true (fun _ => none) 0 aC3w {}
    (fun _ => 0) 0 ldFalse rfl rfl (by decide) rfl

/-! ## Claims C9 and C10: control-flow handlers -/

/-- `range(max(1, repeat))` always has at least one iteration. -/
theorem repToNat_succ (r : Int) : ∃ mm, (max 1 r).toNat = mm + 1 := by
  have h1 : (1 : Int) ≤ max 1 r := le_max_left 1 r
  have h2 : 1 ≤ (max 1 r).toNat := by
    have h3 := Int.toNat_le_toNat h1
    simp only [Int.toNat_one] at h3
    exact h3
  exact ⟨(max 1 r).toNat - 1, by omega⟩

/-- One `conditional_jump` iteration either returns a jump or falls through
with the whole iteration state untouched. -/
theorem execOnce_cj_cases (oracle : DetectOracle) (sim : Bool) (m : String → Option Nat)
    (ci : Nat) (st : IterState) (h : st.action.type = "conditional_jump") :
    (∃ j, execOnce oracle sim m ci st = .ret st (some j))
    ∨ execOnce oracle sim m ci st = .cont st := by
  cases htid : (if condJumpCond st.ctx (st.action.params.test.getD "last_detect")
      then st.action.params.true_target else st.action.params.false_target) with
  | none =>
      right
      rw [execOnce_eq_cj oracle sim m ci st h, htid]
  | some s =>
      by_cases hs : s = ""
      · right
        rw [execOnce_eq_cj oracle sim m ci st h, htid]
        simp [hs]
      · cases hm : m s with
        | some j =>
            left
            exact ⟨j, by rw [execOnce_eq_cj oracle sim m ci st h, htid]; simp [hs, hm]⟩
        | none =>
            right
            rw [execOnce_eq_cj oracle sim m ci st h, htid]
            simp [hs, hm]

/-- Every `loop_until` iteration `return`s on its first evaluation; the
state changes at most in the loop counters. -/
theorem execOnce_loop_ret (oracle : DetectOracle) (sim : Bool) (m : String → Option Nat)
    (ci : Nat) (st : IterState) (h : st.action.type = "loop_until") :
    ∃ li2 v, execOnce oracle sim m ci st = .ret { st with loopIters := li2 } v := by
  rw [execOnce_eq_loop oracle sim m ci st h]
  by_cases hcond : loopUntilCond st.ctx (untilTest st.action.params) (untilValue st.action.params)
  · exact ⟨st.loopIters, none, by simp [hcond]⟩
  by_cases hmax : st.action.params.max_iters.getD 100 ≤ ((st.loopIters ci : Int))
  · exact ⟨st.loopIters, none, by simp [hcond, hmax]⟩
  cases hlab : st.action.params.label with
  | none =>
      exact ⟨fun k => if k = ci then st.loopIters ci + 1 else st.loopIters k, none,
        by simp [hcond, hmax, hlab]⟩
  | some s =>
      by_cases hs : s = ""
      · exact ⟨fun k => if k = ci then st.loopIters ci + 1 else st.loopIters k, none,
          by simp [hcond, hmax, hlab, hs]⟩
      cases hm : m s with
      | some j =>
          exact ⟨fun k => if k = ci then st.loopIters ci + 1 else st.loopIters k, some j,
            by simp [hcond, hmax, hlab, hs, hm]⟩
      | none =>
          exact ⟨fun k => if k = ci then st.loopIters ci + 1 else st.loopIters k, none,
            by simp [hcond, hmax, hlab, hs, hm]⟩

/-- An iteration that falls through with an unchanged state falls through
forever: the repeat loop completes all its iterations. -/
theorem execIters_cont_fix (oracle : DetectOracle) (sim : Bool) (m : String → Option Nat)
    (ci : Nat) (st : IterState) (h : execOnce oracle sim m ci st = .cont st) :
    ∀ n, execIters oracle sim m ci n st = .fellThrough st n := by
  intro n
  induction n with
  | zero => rfl
  | succ k ih => simp [execIters, h, ih]

/-- C9: whenever the `conditional_jump` or `loop_until` handler resolves an
explicit jump, it `return`s right away: exactly one iteration of its
`repeatCount` loop ran and no `delayAfterMs` sleep happens — even though
every fall-through action sleeps `delayAfterMs` once after its repeat
loop. -/
theorem C9_jump_skips_delay_after_and_repeats (oracle : DetectOracle) (sim : Bool)
    (m : String → Option Nat) (ci : Nat) (a : Action) (ctx : Ctx) (li : Nat → Nat) (dc : Nat)
    (j : Nat)
    (hty : a.type = "conditional_jump" ∨ a.type = "loop_until")
    (hj : (execute oracle sim m ci a ctx li dc).jump = some j) :
    (execute oracle sim m ci a ctx li dc).iters = 1
    ∧ ∀ ms, Ev.sleepAfter ms ∉ (execute oracle sim m ci a ctx li dc).events := by
  by_cases hdb : a.delay_before_ms < 0
  · exfalso
    simp [execute, hdb] at hj
  have hpre : ∀ ms, Ev.sleepAfter ms
      ∉ (if a.delay_before_ms ≠ 0 then [Ev.sleepBefore a.delay_before_ms] else []) := by
    intro ms
    by_cases hz : a.delay_before_ms ≠ 0 <;> simp [hz]
  obtain ⟨mm, hmm⟩ := repToNat_succ a.repeat_count
  cases hty with
  | inl hcj =>
      rcases execOnce_cj_cases oracle sim m ci
          { action := a, ctx := ctx, loopIters := li, detectCalls := dc,
            events := if a.delay_before_ms ≠ 0 then [Ev.sleepBefore a.delay_before_ms] else [] }
          hcj with ⟨j2, hret⟩ | hcont
      · have hit : execIters oracle sim m ci (mm + 1)
            { action := a, ctx := ctx, loopIters := li, detectCalls := dc,
              events := if a.delay_before_ms ≠ 0 then [Ev.sleepBefore a.delay_before_ms] else [] }
            = .earlyReturn
              { action := a, ctx := ctx, loopIters := li, detectCalls := dc,
                events := if a.delay_before_ms ≠ 0
                  then [Ev.sleepBefore a.delay_before_ms] else [] } 1 (some j2) := by
          simp only [execIters]
          rw [hret]
        constructor
        · simp only [execute, if_neg hdb, hmm, hit]
        · intro ms
          simp only [execute, if_neg hdb, hmm, hit]
          exact hpre ms
      · exfalso
        have hall := execIters_cont_fix oracle sim m ci _ hcont (mm + 1)
        simp only [execute, if_neg hdb, hmm] at hj
        rw [hall] at hj
        by_cases hda : a.delay_after_ms < 0
        · simp [hda] at hj
        · simp [hda] at hj
  | inr hlp =>
      obtain ⟨li2, v, hret⟩ := execOnce_loop_ret oracle sim m ci
        { action := a, ctx := ctx, loopIters := li, detectCalls := dc,
          events := if a.delay_before_ms ≠ 0 then [Ev.sleepBefore a.delay_before_ms] else [] }
        hlp
      have hit : execIters oracle sim m ci (mm + 1)
          { action := a, ctx := ctx, loopIters := li, detectCalls := dc,
            events := if a.delay_before_ms ≠ 0 then [Ev.sleepBefore a.delay_before_ms] else [] }
          = .earlyReturn
            { action := a, ctx := ctx, loopIters := li2, detectCalls := dc,
              events := if a.delay_before_ms ≠ 0
                then [Ev.sleepBefore a.delay_before_ms] else [] } 1 v := by
        simp only [execIters]
        rw [hret]
      constructor
      · simp only [execute, if_neg hdb, hmm, hit]
      · intro ms
        simp only [execute, if_neg hdb, hmm, hit]
        exact hpre ms

/-- C9 witness: a concrete `conditional_jump` with `repeat_count = 3` and
`delay_after_ms = 50` that resolves its jump. -/
theorem C9_jump_witness :
    (execute oracleNever true mC9 0 aC9 {} (fun _ => 0) 0).iters = 1
    ∧ ∀ ms, Ev.sleepAfter ms ∉ (execute oracleNever true mC9 0 aC9 {} (fun _ => 0) 0).events :=
  C9_jump_skips_delay_after_and_repeats oracleNever true mC9 0 aC9 {} (fun _ => 0) 0 7
    (Or.inl rfl) (by decide)

/-- C10: with no detect executed yet (`last_detect` unset), the
`last_detect` tests evaluate to `false` for **every** `until.value` —
including `value = false`, where comparing "found = false" against the
value would otherwise hold — so a `loop_until` (counter below
`max_iters`, label resolving) jumps back instead of exiting via its
condition, and a `conditional_jump` resolves through its `false_target`
regardless of `true_target`. -/
theorem C10_unset_last_detect_tests_false :
    (∀ ctx : Ctx, ctx.last_detect = none →
      (∀ value, loopUntilCond ctx "last_detect" value = false)
      ∧ condJumpCond ctx "last_detect" = false)
    ∧ (∀ (oracle : DetectOracle) (sim : Bool) (m : String → Option Nat) (ci : Nat) (a : Action)
        (ctx : Ctx) (li : Nat → Nat) (dc : Nat) (s : String) (j : Nat),
      ctx.last_detect = none → a.type = "loop_until" →
      untilTest a.params = "last_detect" → 0 ≤ a.delay_before_ms →
      a.params.label = some s → s ≠ "" → m s = some j →
      ((li ci : Int) < a.params.max_iters.getD 100) →
      (execute oracle sim m ci a ctx li dc).jump = some j)
    ∧ (∀ (oracle : DetectOracle) (sim : Bool) (m : String → Option Nat) (ci : Nat) (a : Action)
        (ctx : Ctx) (li : Nat → Nat) (dc : Nat) (s : String) (j : Nat),
      ctx.last_detect = none → a.type = "conditional_jump" →
      a.params.test.getD "last_detect" = "last_detect" → 0 ≤ a.delay_before_ms →
      a.params.false_target = some s → s ≠ "" → m s = some j →
      (execute oracle sim m ci a ctx li dc).jump = some j) := by
  refine ⟨?_, ?_, ?_⟩
  · intro ctx h
    exact ⟨fun value => by simp [loopUntilCond, h], by simp [condJumpCond, h]⟩
  · intro oracle sim m ci a ctx li dc s j hctx hty hut hdb hlab hs hm hcount
    have hcond : loopUntilCond ctx (untilTest a.params) (untilValue a.params) = false := by
      rw [hut]
      simp [loopUntilCond, hctx]
    have hret : execOnce oracle sim m ci
        { action := a, ctx := ctx, loopIters := li, detectCalls := dc,
          events := if a.delay_before_ms ≠ 0 then [Ev.sleepBefore a.delay_before_ms] else [] }
        = OnceOut.ret
          { action := a, ctx := ctx,
            loopIters := fun k => if k = ci then li ci + 1 else li k, detectCalls := dc,
            events := if a.delay_before_ms ≠ 0 then [Ev.sleepBefore a.delay_before_ms] else [] }
          (some j) := by
      rw [execOnce_eq_loop oracle sim m ci _ hty]
      simp [hcond, not_le.mpr hcount, hlab, hs, hm]
    obtain ⟨mm, hmm⟩ := repToNat_succ a.repeat_count
    have hit : execIters oracle sim m ci (mm + 1)
        { action := a, ctx := ctx, loopIters := li, detectCalls := dc,
          events := if a.delay_before_ms ≠ 0 then [Ev.sleepBefore a.delay_before_ms] else [] }
        = .earlyReturn
          { action := a, ctx := ctx,
            loopIters := fun k => if k = ci then li ci + 1 else li k, detectCalls := dc,
            events := if a.delay_before_ms ≠ 0
              then [Ev.sleepBefore a.delay_before_ms] else [] } 1 (some j) := by
      simp only [execIters]
      rw [hret]
    simp only [execute, if_neg (not_lt.mpr hdb), hmm, hit]
  · intro oracle sim m ci a ctx li dc s j hctx hty htest hdb hft hs hm
    have hcond : condJumpCond ctx (a.params.test.getD "last_detect") = false := by
      rw [htest]
      simp [condJumpCond, hctx]
    have hret : execOnce oracle sim m ci
        { action := a, ctx := ctx, loopIters := li, detectCalls := dc,
          events := if a.delay_before_ms ≠ 0 then [Ev.sleepBefore a.delay_before_ms] else [] }
        = OnceOut.ret
          { action := a, ctx := ctx, loopIters := li, detectCalls := dc,
            events := if a.delay_before_ms ≠ 0 then [Ev.sleepBefore a.delay_before_ms] else [] }
          (some j) := by
      rw [execOnce_eq_cj oracle sim m ci _ hty]
      simp [hcond, hft, hs, hm]
    obtain ⟨mm, hmm⟩ := repToNat_succ a.repeat_count
    have hit : execIters oracle sim m ci (mm + 1)
        { action := a, ctx := ctx, loopIters := li, detectCalls := dc,
          events := if a.delay_before_ms ≠ 0 then [Ev.sleepBefore a.delay_before_ms] else [] }
        = .earlyReturn
          { action := a, ctx := ctx, loopIters := li, detectCalls := dc,
            events := if a.delay_before_ms ≠ 0
              then [Ev.sleepBefore a.delay_before_ms] else [] } 1 (some j) := by
      simp only [execIters]
      rw [hret]
    simp only [execute, if_neg (not_lt.mpr hdb), hmm, hit]

/-- C10 witness: with `last_detect` unset, the concrete `loop_until` with
`until.value = false` still jumps back to its label, and the concrete
`conditional_jump` jumps to its false target. -/
theorem C10_unset_witness :
    (execute oracleNever true mC10 0 aC10 {} (fun _ => 0) 0).jump = some 2
    ∧ (execute oracleNever true mC9 0 aC9 {} (fun _ => 0) 0).jump = some 7 :=
  ⟨C10_unset_last_detect_tests_false.2.1 oracleNever true mC10 0 aC10 {} (fun _ => 0) 0 "L" 2
      rfl rfl (by decide) (by decide) rfl (by decide) (by decide) (by decide),
    C10_unset_last_detect_tests_false.2.2 oracleNever true mC9 0 aC9 {} (fun _ => 0) 0 "f" 7
      rfl rfl (by decide) (by decide) rfl (by decide) (by decide)⟩

/-! ## Claim C8: handler exceptions -/

/-- Prepending an element keeps a known nonempty last element. -/
theorem getLast?_cons_some {α : Type _} (a : α) {l : List α} {x : α}
    (h : l.getLast? = some x) : (a :: l).getLast? = some x := by
  cases l with
  | nil => simp at h
  | cons b t =>
      rw [List.getLast?_cons_cons]
      exact h

/-- Every completed worker loop ends by emitting `"Idle"`, and an error at
some index makes that index the last executed one (nothing after it runs,
and the erroring action is not retried). -/
theorem runFrom_error_props (oracle : DetectOracle) (sim : Bool) (m : String → Option Nat) :
    ∀ (fuel i : Nat) (st : RunState),
      ((runFrom oracle sim m fuel i st).completed = true →
        (runFrom oracle sim m fuel i st).statuses.getLast? = some "Idle")
      ∧ (∀ k, (runFrom oracle sim m fuel i st).errorIdx = some k →
          (runFrom oracle sim m fuel i st).executed.getLast? = some k
          ∧ (runFrom oracle sim m fuel i st).completed = true) := by
  intro fuel
  induction fuel with
  | zero =>
    intro i st
    constructor
    · intro h
      simp [runFrom] at h
    · intro k h
      simp [runFrom] at h
  | succ n ih =>
    intro i st
    by_cases hi : i < st.actions.length
    · cases herr : (execute oracle sim m i st.actions[i] st.ctx st.loopIters
          st.detectCalls).error with
      | some msg =>
          rw [runFrom_error oracle sim m n i st msg hi herr]
          refine ⟨fun _ => rfl, fun k hk => ?_⟩
          simp only [Option.some.injEq] at hk
          subst hk
          exact ⟨rfl, rfl⟩
      | none =>
          rw [runFrom_ok oracle sim m n i st hi herr]
          simp only [Option.getD]
          constructor
          · intro hc
            exact (ih _ _).1 hc
          · intro k hk
            obtain ⟨hlast, hcomp⟩ := (ih _ _).2 k hk
            refine ⟨?_, hcomp⟩
            have hne : (runFrom oracle sim m n
                ((execute oracle sim m i st.actions[i] st.ctx st.loopIters
                  st.detectCalls).jump.getD (i + 1))
                { actions := st.actions.set i (execute oracle sim m i st.actions[i] st.ctx
                    st.loopIters st.detectCalls).action,
                  ctx := (execute oracle sim m i st.actions[i] st.ctx st.loopIters
                    st.detectCalls).ctx,
                  loopIters := (execute oracle sim m i st.actions[i] st.ctx st.loopIters
                    st.detectCalls).loopIters,
                  detectCalls := (execute oracle sim m i st.actions[i] st.ctx st.loopIters
                    st.detectCalls).detectCalls }).executed.getLast? = some k := hlast
            exact getLast?_cons_some i hne
    · rw [runFrom_stop oracle sim m n i st hi]
      refine ⟨fun _ => rfl, fun k hk => ?_⟩
      simp at hk

/-- C8: for every timeline and every oracle behaviour, a handler exception
is caught rather than propagated: every completed run's final status is
`"Idle"`, and when a handler raises at index `k`, that index is the last
one dispatched (the action is not retried, no later action runs) and the
run still ends in `"Idle"`. -/
theorem C8_handler_error_terminates_run (oracle : DetectOracle) (sim : Bool)
    (actions : List Action) (fuel : Nat) :
    ((run oracle sim actions fuel).completed = true →
      (run oracle sim actions fuel).statuses.getLast? = some "Idle")
    ∧ ∀ k, (run oracle sim actions fuel).errorIdx = some k →
        (run oracle sim actions fuel).executed.getLast? = some k
        ∧ (run oracle sim actions fuel).statuses.getLast? = some "Idle"
        ∧ (run oracle sim actions fuel).completed = true := by
  have h := runFrom_error_props oracle sim (jumpMap actions) fuel 0
    { actions := actions, ctx := { last_detect := none }, loopIters := fun _ => 0,
      detectCalls := 0 }
  constructor
  · intro hc
    simp only [run] at hc ⊢
    exact getLast?_cons_some _ (h.1 hc)
  · intro k hk
    simp only [run] at hk ⊢
    obtain ⟨hlast, hcomp⟩ := h.2 k hk
    exact ⟨hlast, getLast?_cons_some _ (h.1 hcomp), hcomp⟩

/-- C8 witness: a single `detect` whose external matcher raises. -/
theorem C8_error_witness :
    (run oracleRaise true tlRaise 5).errorIdx = some 0
    ∧ ((run oracleRaise true tlRaise 5).executed.getLast? = some 0
      ∧ (run oracleRaise true tlRaise 5).statuses.getLast? = some "Idle"
      ∧ (run oracleRaise true tlRaise 5).completed = true) :=
  ⟨by decide, (C8_handler_error_terminates_run oracleRaise true tlRaise 5).2 0 (by decide)⟩

/-! ## Claim C2: bounded loop re-entry -/

/-- C2: with `until.value = true`, `test = "last_detect"`, `max_iters = 3`
and a detect inside the loop that always reports `found = false`, the loop
body (label at index 0, detect at index 1) executes exactly 4 times: the
`loop_until` at index 2 is evaluated 4 times, jumping back on the first 3
evaluations and falling through on the 4th when the counter has reached
`max_iters`; the run then ends with `"Idle"`. -/
theorem C2_loop_until_bounded_reentry :
    (run oracleNever true tlC2 20).executed = [0, 1, 2, 0, 1, 2, 0, 1, 2, 0, 1, 2]
    ∧ (run oracleNever true tlC2 20).executed.count 1 = 4
    ∧ (run oracleNever true tlC2 20).executed.count 2 = 4
    ∧ (run oracleNever true tlC2 20).statuses = ["Running", "Idle"]
    ∧ (run oracleNever true tlC2 20).completed = true := by
  exact ⟨by decide, by decide, by decide, by decide, by decide⟩

/-! ## Claim C5: jump-target index map -/

/-- A nonempty list has a last element. -/
theorem getLast?_isSome_of_cons {α : Type _} (q : α) (r : List α) :
    ∃ x, (q :: r).getLast? = some x := by
  cases hg : (q :: r).getLast? with
  | some x => exact ⟨x, rfl⟩
  | none =>
      exfalso
      have := List.getLast?_eq_none_iff.mp hg
      simp at this

/-- Looking up a key in the fold that builds an index map yields the scan
position of the **last** entry registering that key, falling back to the
initial map: a later registration of the same key overwrites an earlier
one within a single map. -/
theorem foldIns_lookup (keyOf : Action → String) (k : String) :
    ∀ (l : List (Nat × Action)) (m0 : String → Option Nat),
      (l.foldl (fun m p => if keyOf p.2 = "" then m
          else fun k2 => if k2 = keyOf p.2 then some p.1 else m k2) m0) k
      = ((lastReg keyOf k l).orElse fun _ => m0 k) := by
  intro l
  induction l with
  | nil =>
    intro m0
    simp [lastReg, Option.orElse]
  | cons p t ih =>
    intro m0
    rw [List.foldl_cons, ih]
    by_cases hreg : keyOf p.2 = k ∧ k ≠ ""
    · have hke : keyOf p.2 ≠ "" := by
        rw [hreg.1]
        exact hreg.2
      have hstep : (if keyOf p.2 = "" then m0
          else fun k2 => if k2 = keyOf p.2 then some p.1 else m0 k2) k = some p.1 := by
        rw [if_neg hke]
        simp [hreg.1]
      have hfilter : (p :: t).filter (fun q => decide (keyOf q.2 = k ∧ k ≠ ""))
          = p :: t.filter (fun q => decide (keyOf q.2 = k ∧ k ≠ "")) := by
        simp [List.filter_cons, hreg]
      rw [hstep]
      cases hft : t.filter (fun q => decide (keyOf q.2 = k ∧ k ≠ "")) with
      | nil =>
          simp only [lastReg, hfilter, hft, List.getLast?_nil, List.getLast?_singleton,
            Option.map_none', Option.map_some', Option.none_orElse', Option.some_orElse']
      | cons q r =>
          obtain ⟨x, hx⟩ := getLast?_isSome_of_cons q r
          simp only [lastReg, hfilter, hft, List.getLast?_cons_cons, hx,
            Option.map_some', Option.some_orElse']
    · have hstep : (if keyOf p.2 = "" then m0
          else fun k2 => if k2 = keyOf p.2 then some p.1 else m0 k2) k = m0 k := by
        by_cases hke : keyOf p.2 = ""
        · simp [hke]
        · have hkk : k ≠ keyOf p.2 := by
            intro hkk
            refine hreg ⟨hkk.symm, ?_⟩
            rw [hkk]
            exact hke
          simp [hke, hkk]
      have hfilter : (p :: t).filter (fun q => decide (keyOf q.2 = k ∧ k ≠ ""))
          = t.filter (fun q => decide (keyOf q.2 = k ∧ k ≠ "")) := by
        simp [List.filter_cons, hreg]
      rw [hstep]
      simp only [lastReg, hfilter]

/-- C5 (counterexample): a label registering `"x"` at scan index 0 and an
action id registering `"x"` later, at scan index 1: the merged map resolves
`"x"` to 0, not to the later-registered 1 — refuting "the last-registered
entry wins for every collision". -/
theorem C5_label_beats_later_id_cex :
    Engine.jumpMap tlC5 "x" = some 0 ∧ Engine.jumpMap tlC5 "x" ≠ some 1 := by
  exact ⟨by decide, by decide⟩

/-- C5 (amended): in the merged jump map `id_to_index | label_to_index`,
a key resolves to the last-scanned **label** registration of that key when
one exists, and only otherwise to the last-scanned **id** registration:
within each of the two maps the later entry overwrites the earlier one,
but across maps a label entry beats an id entry regardless of scan order
(Python dict union lets the right operand win). -/
theorem C5_amended_last_per_kind_label_over_id (actions : List Action) (k : String) :
    Engine.jumpMap actions k =
      ((lastReg Engine.regKey_label k actions.enum).orElse
        fun _ => lastReg Engine.regKey_id k actions.enum) := by
  show ((Engine.label_to_index actions k).orElse fun _ => Engine.id_to_index actions k) = _
  unfold Engine.label_to_index Engine.id_to_index Engine.buildMap
  rw [foldIns_lookup Engine.regKey_label k, foldIns_lookup Engine.regKey_id k]
  cases lastReg Engine.regKey_label k actions.enum <;>
    cases lastReg Engine.regKey_id k actions.enum <;> simp [Option.orElse]

/-- C6 amended witness: the concrete tie configuration satisfies the
hypotheses, so the reported match is scale `1.0`'s. -/
theorem C6_amended_witness :
    match_template obsC6 10 10 (mkRat 1 4) =
      { found := decide (mkRat 1 4 ≤ (obsC6 1).max_val),
        bbox := some ((obsC6 1).max_loc.1, (obsC6 1).max_loc.2,
          ((max 1 10 : Nat) : Int), ((max 1 10 : Nat) : Int)),
        score := (obsC6 1).max_val } :=
  C6_amended_earlier_scale_wins_ties.2 obsC6 10 10 (mkRat 1 4) (by decide) (by decide)

end AutoClick
